import Mathlib

/-! # Verification of `assets/render_teams.js`

A shallow embedding of the card renderer for grant opportunities: the text
normaliser (`safe`), the field parsers (`parseTeam`, `parseAims`), the data
loader (`loadTeams`), the view builder (`el`, `renderMeta`, `renderCard`) and the
filter and partition engine (`applyFilter`, `computeTopIds`, the mode selection
of `main`).

Conventions of the embedding.

* A JavaScript string is the list of its characters (`Str`).
* A JavaScript value read from a record or from an attribute is a `JsVal`.
* `String.prototype.toLowerCase` is a library function of the host; every
  definition that calls it takes it as the argument `toLowerCase`, so the
  theorems hold for whatever case mapping the host implements.
* `String.prototype.trim` removes the code points of the ECMAScript
  productions *WhiteSpace* and *LineTerminator* from both ends.
-/

namespace RenderTeams

/-! ## Strings -/

/-- A JavaScript string, as the list of its characters. -/
abbrev Str := List Char

/-- The code points `String.prototype.trim` strips: ECMAScript *WhiteSpace*
(TAB, VT, FF, SP, NBSP, ZWNBSP and the Unicode category Zs) and
*LineTerminator* (LF, CR, LS, PS). -/
def isWhiteSpace (c : Char) : Bool :=
  decide (c.toNat ∈ [0x09, 0x0A, 0x0B, 0x0C, 0x0D, 0x20, 0xA0, 0x1680, 0x2028,
    0x2029, 0x202F, 0x205F, 0x3000, 0xFEFF]) ||
  (decide (0x2000 ≤ c.toNat) && decide (c.toNat ≤ 0x200A))

/-- `s.trimStart()`. -/
def trimStart (s : Str) : Str := s.dropWhile isWhiteSpace

/-- `s.trimEnd()`. -/
def trimEnd (s : Str) : Str := (s.reverse.dropWhile isWhiteSpace).reverse

/-- `s.trim()`. -/
def trim (s : Str) : Str := trimEnd (trimStart s)

/-- `Boolean(s)` for a string `s`: a string is truthy when it is not empty. -/
def truthy (s : Str) : Bool := !s.isEmpty

/-- The scan of `s.split(sep)` for a non-empty string separator `sep`.
`skip` counts the characters of a matched separator still to be passed over,
`cur` holds the characters of the current piece, last first. At a position
where `sep` starts, the current piece is closed and the separator skipped;
at the end of the input the current piece is closed. -/
def splitGo (sep : Str) : Nat → Str → Str → List Str
  | _, cur, [] => [cur.reverse]
  | skip + 1, cur, _ :: rest => splitGo sep skip cur rest
  | 0, cur, c :: rest =>
    if sep.isPrefixOf (c :: rest) then
      cur.reverse :: splitGo sep (sep.length - 1) [] rest
    else
      splitGo sep 0 (c :: cur) rest

/-- `s.split(sep)` for a non-empty string separator `sep`. -/
def split (s : Str) (sep : Str) : List Str := splitGo sep 0 [] s

/-- The scan of `s.split(/\n+/)`. `inRun` tells that the previous character was
part of a matched run of newlines, which a further newline extends; `cur` holds
the characters of the current piece, last first. -/
def splitNewlinesGo : Bool → Str → Str → List Str
  | _, cur, [] => [cur.reverse]
  | inRun, cur, c :: rest =>
    if c = '\n' then
      if inRun then splitNewlinesGo true cur rest
      else cur.reverse :: splitNewlinesGo true [] rest
    else
      splitNewlinesGo false (c :: cur) rest

/-- `s.split(/\n+/)`: the pieces between maximal runs of newlines. -/
def splitNewlines (s : Str) : List Str := splitNewlinesGo false [] s

/-- `s.includes(q)`: `q` occurs in `s` at some position. -/
def includes : Str → Str → Bool
  | [], q => q.isEmpty
  | c :: rest, q => q.isPrefixOf (c :: rest) || includes rest q

/-- `parts.join(sep)` for an array of strings. -/
def join (sep : Str) : List Str → Str
  | [] => []
  | [s] => s
  | s :: t :: rest => s ++ sep ++ join sep (t :: rest)

/-! ## Values and records -/

/-- A JavaScript value as the program reads it from a record field, an
attribute or an input: `undefined` (also an absent property), `null`, a string,
or any other value (number, boolean, array, plain object) whose `toString()`
returns `shown`. -/
inductive JsVal where
  | undefined
  | null
  | str (s : Str)
  | other (shown : Str)
  deriving DecidableEq, Repr

/-- `safe(x)`: `(x ?? "").toString()`. -/
def safe : JsVal → Str
  | .undefined => []
  | .null => []
  | .str s => s
  | .other shown => shown

/-- An opportunity record; an absent field reads as `undefined`. -/
structure Rec where
  opportunity_id : JsVal := .undefined
  opportunity_title : JsVal := .undefined
  agency_name : JsVal := .undefined
  opportunity_number : JsVal := .undefined
  opp_status : JsVal := .undefined
  open_date : JsVal := .undefined
  close_date : JsVal := .undefined
  opportunity_url : JsVal := .undefined
  proposed_title : JsVal := .undefined
  rationale : JsVal := .undefined
  team_members : JsVal := .undefined
  aims_or_projects : JsVal := .undefined
  team_size_category : JsVal := .undefined
  deriving DecidableEq, Repr

/-! ## Field parser -/

/-- `parseTeam(teamMembersStr)`. -/
def parseTeam (teamMembersStr : JsVal) : List Str :=
  ((split (safe teamMembersStr) ";".toList).map trim).filter truthy

/-- `parseAims(aimsRaw)`. -/
def parseAims (aimsRaw : JsVal) : List Str :=
  let t := trim (safe aimsRaw)
  if !truthy t then []
  else if includes t " | ".toList then ((split t " | ".toList).map trim).filter truthy
  else if includes t "\n".toList then ((splitNewlines t).map trim).filter truthy
  else [t]

/-! ## Filter -/

/-- The eight fields `applyFilter` searches, in the order of the source. -/
def searchFields (r : Rec) : List JsVal :=
  [r.opportunity_title, r.agency_name, r.opportunity_number, r.opp_status,
   r.team_members, r.proposed_title, r.rationale, r.aims_or_projects]

/-- `applyFilter(recs, query)`. -/
def applyFilter (toLowerCase : Str → Str) (recs : List Rec) (query : JsVal) : List Rec :=
  let q := toLowerCase (trim (safe query))
  if !truthy q then recs
  else recs.filter fun r =>
    let hay := toLowerCase (join " ".toList ((searchFields r).map safe))
    includes hay q

/-- A case mapping for the examples: ASCII letters are lowered, every other
character is kept. -/
def asciiLower (s : Str) : Str := s.map Char.toLower

/-! ## Top identifiers and the active subset -/

/-- A JavaScript `Set` of strings: its members in insertion order, each once. -/
structure JsSet where
  members : List Str
  deriving DecidableEq, Repr

/-- The empty `Set`. -/
def JsSet.empty : JsSet := ⟨[]⟩

/-- `set.add(x)`: a value already in the set is not added again. -/
def JsSet.add (s : JsSet) (x : Str) : JsSet :=
  if x ∈ s.members then s else ⟨s.members ++ [x]⟩

/-- `new Set(xs)`: the elements of `xs` are added one after the other. -/
def JsSet.ofArray (xs : List Str) : JsSet := xs.foldl JsSet.add JsSet.empty

/-- `set.has(x)`. -/
def JsSet.has (s : JsSet) (x : Str) : Bool := decide (x ∈ s.members)

/-- The index `Array.prototype.slice` derives from an integer argument: a
negative argument counts from the end, and the result is clamped to
`0 .. len`. -/
def sliceIndex (len : Nat) (i : Int) : Nat :=
  if i < 0 then (max ((len : Int) + i) 0).toNat else (min i (len : Int)).toNat

/-- `xs.slice(start, stop)` for integer arguments. A number that is not an
integer acts as the integer `slice` converts it to: its truncation, `0` for
`NaN`, and an index beyond the ends of the array for an infinite value. -/
def slice {α : Type} (xs : List α) (start stop : Int) : List α :=
  let k := sliceIndex xs.length start
  let final := sliceIndex xs.length stop
  (xs.drop k).take (final - k)

/-- `computeTopIds(recs, topN)` for an integer `topN`. -/
def computeTopIds (recs : List Rec) (topN : Int) : JsSet :=
  let ids := (((slice recs 0 (max 0 topN)).map fun r => safe r.opportunity_id)).filter truthy
  JsSet.ofArray ids

/-- The variable `base` of `main`, the active subset: what `main` computes from
the loaded records `recsAll`, the mode and `topN` before the first render. -/
def mainBase (recsAll : List Rec) (mode : Str) (topN : Int) : List Rec :=
  let topIds := computeTopIds recsAll topN
  if mode = "top".toList then slice recsAll 0 topN
  else if mode = "others".toList then
    recsAll.filter fun r => !topIds.has (safe r.opportunity_id)
  else recsAll

/-! ## Data loader -/

/-- What `JSON.parse` or `resp.json()` returned: an array of records (truthy,
also when empty), a falsy value (`null`, `false`, `0`, `""`), or some other
truthy value. -/
inductive Payload where
  | records (recs : List Rec)
  | falsy
  | otherTruthy
  deriving DecidableEq, Repr

/-- `Boolean(p)` for a parsed payload. -/
def Payload.truthy : Payload → Bool
  | .records _ => true
  | .falsy => false
  | .otherTruthy => true

/-- A thrown value `e` as `loadTeams` looks at it: `message` is `e.message` when
`e` and `e.message` are truthy and is empty otherwise, `shown` is the string
form of `e`. -/
structure Thrown where
  message : Str
  shown : Str
  deriving DecidableEq, Repr

/-- `new Error(msg)`. -/
def Thrown.error (msg : Str) : Thrown := ⟨msg, "Error: ".toList ++ msg⟩

/-- `(e && e.message ? e.message : e)` in a string concatenation. -/
def Thrown.cause (e : Thrown) : Str := if truthy e.message then e.message else e.shown

/-- What `await fetch(path)` does: it rejects with `e`, or it resolves to a
response with its `ok` flag, its `status` and the outcome of `resp.json()`. -/
inductive FetchOutcome where
  | rejected (e : Thrown)
  | response (ok : Bool) (status : Nat) (json : Except Thrown Payload)

/-- The host page as `loadTeams` sees it. `protocol` is
`window.location.protocol` (`none` when `window.location` is falsy),
`getElementById` gives the `textContent` of the element with an id, `jsonParse`
is `JSON.parse` (an error is the thrown `SyntaxError`) and `fetch` the outcome
of fetching a path. -/
structure Host where
  protocol : Option Str
  getElementById : Str → Option Str
  jsonParse : Str → Except Thrown Payload
  fetch : Str → FetchOutcome

/-- The outcome of `loadTeams`: the value returned or the message of the error
thrown, with the paths `fetch` was called on, in order. -/
structure LoadResult where
  outcome : Except Str Payload
  fetched : List Str

/-- The closure `tryEmbedded` of `loadTeams`; `none` is `null`. -/
def tryEmbedded (h : Host) (embeddedId : Option Str) : Option Payload :=
  match embeddedId with
  | none => none
  | some id =>
    if !truthy id then none
    else match h.getElementById id with
      | none => none
      | some textContent =>
        let txt := trim (if truthy textContent then textContent else [])
        if !truthy txt then none
        else match h.jsonParse txt with
          | .ok p => some p
          | .error _ => none

/-- `Boolean(embedded)` for the result of `tryEmbedded`. -/
def embeddedTruthy : Option Payload → Option Payload
  | some p => if p.truthy then some p else none
  | none => none

/-- `loadTeams(jsonPath, embeddedId)`; a `null` argument is `none`. -/
def loadTeams (h : Host) (jsonPath embeddedId : Option Str) : LoadResult :=
  let embedded := tryEmbedded h embeddedId
  match h.protocol == some "file:".toList, embeddedTruthy embedded with
  | true, some p => ⟨.ok p, []⟩
  | _, _ =>
    match jsonPath.filter truthy with
    | some path =>
      let caught (e : Thrown) : LoadResult :=
        match embeddedTruthy embedded with
        | some p => ⟨.ok p, [path]⟩
        | none =>
          ⟨.error ("Failed to load data from ".toList ++ path ++ ": ".toList ++ e.cause), [path]⟩
      match h.fetch path with
      | .rejected e => caught e
      | .response false status _ =>
        caught (Thrown.error ("HTTP ".toList ++ (Nat.repr status).toList))
      | .response true _ (.error e) => caught e
      | .response true _ (.ok data) => ⟨.ok data, [path]⟩
    | none =>
      match embeddedTruthy embedded with
      | some p => ⟨.ok p, []⟩
      | none => ⟨.error "No embedded data and no data path provided".toList, []⟩

/-! ## View builder -/

/-- A node of the document tree the view builder produces: a text node
(`document.createTextNode`), the content the browser parses out of a string
assigned to `innerHTML`, or an element with its tag, its `className`, its
attributes in the order they were set and its children. -/
inductive Node where
  | text (data : Str)
  | markup (html : Str)
  | element (tag : Str) (className : Str) (attributes : List (Str × Str))
      (children : List Node)
  deriving Repr

/-- The element `el` is building: `className`, attributes and children. -/
structure Building where
  className : Str := []
  attributes : List (Str × Str) := []
  children : List Node := []

/-- `node.setAttribute(k, v)`: the value of an attribute already set is
replaced in place, a new attribute comes last. -/
def setAttribute (attributes : List (Str × Str)) (k v : Str) : List (Str × Str) :=
  if attributes.any (fun a => a.1 == k) then
    attributes.map fun a => if a.1 == k then (k, v) else a
  else attributes ++ [(k, v)]

/-- One turn of the loop of `el` over the entries of `attrs`. Every value the
program passes is a string, so the test that `v` is neither `undefined` nor
`null` holds. Assigning `innerHTML` replaces the children by the parsed
markup, assigning `textContent` by one text node, or by nothing for the empty
string. -/
def elStep (node : Building) (kv : Str × Str) : Building :=
  if kv.1 = "class".toList then { node with className := kv.2 }
  else if kv.1 = "html".toList then { node with children := [Node.markup kv.2] }
  else if kv.1 = "text".toList then
    { node with children := if truthy kv.2 then [Node.text kv.2] else [] }
  else { node with attributes := setAttribute node.attributes kv.1 kv.2 }

/-- `el(tag, attrs, children)`. -/
def el (tag : Str) (attrs : List (Str × Str)) (children : List Node) : Node :=
  let node := attrs.foldl elStep {}
  Node.element tag node.className node.attributes (node.children ++ children)

/-- The closure `addText` of `renderMeta`, on the rows collected so far. -/
def addText (rows : List Node) (label : Str) (value : JsVal) : List Node :=
  let v := trim (safe value)
  if !truthy v then rows
  else rows ++ [el "div".toList [("class".toList, "meta-row".toList)] [
    el "div".toList [("class".toList, "meta-label".toList), ("text".toList, label)] [],
    el "div".toList [("class".toList, "meta-value".toList), ("text".toList, v)] []]]

/-- The closure `addLink` of `renderMeta`, on the rows collected so far. -/
def addLink (rows : List Node) (label : Str) (text href : JsVal) : List Node :=
  let t := trim (safe text)
  let h := trim (safe href)
  if !truthy t then rows
  else if !truthy h then addText rows label (.str t)
  else rows ++ [el "div".toList [("class".toList, "meta-row".toList)] [
    el "div".toList [("class".toList, "meta-label".toList), ("text".toList, label)] [],
    el "div".toList [("class".toList, "meta-value".toList)] [
      el "a".toList [("href".toList, h), ("target".toList, "_blank".toList),
        ("rel".toList, "noopener noreferrer".toList)] [Node.text t]]]]

/-- The rows `renderMeta` collects. -/
def metaRows (rec : Rec) : List Node :=
  let rows : List Node := []
  let rows := addText rows "Agency".toList rec.agency_name
  let rows := addLink rows "Announcement ID".toList rec.opportunity_number rec.opportunity_url
  let rows := addText rows "Status".toList rec.opp_status
  let rows := addText rows "Open date".toList rec.open_date
  addText rows "Close date".toList rec.close_date

/-- `renderMeta(rec)`; `none` is `null`. -/
def renderMeta (rec : Rec) : Option Node :=
  let rows := metaRows rec
  if rows.length = 0 then none
  else some (el "div".toList [("class".toList, "section".toList)] [
    el "div".toList [("class".toList, "section-label".toList),
      ("text".toList, "Opportunity details".toList)] [],
    el "div".toList [("class".toList, "meta".toList)] rows])

/-- The render options of `renderCard`, each read for its truthiness. -/
structure Opts where
  openByDefault : Bool := false
  alwaysExpanded : Bool := false
  deriving DecidableEq, Repr

/-- The attributes of a link that opens in a new tab. -/
def linkAttrs (href : Str) : List (Str × Str) :=
  [("href".toList, href), ("target".toList, "_blank".toList),
   ("rel".toList, "noopener noreferrer".toList)]

/-- The array `subtitleBits` of `renderCard`. -/
def subtitleBits (rec : Rec) : List Node :=
  let agency := safe rec.agency_name
  let oppNum := safe rec.opportunity_number
  let closeDate := safe rec.close_date
  let url := safe rec.opportunity_url
  let bits : List Node := []
  let bits := if truthy agency then bits ++ [Node.text agency] else bits
  let bits :=
    if truthy oppNum then
      bits ++ [Node.text " • ".toList] ++
        [if truthy url then el "a".toList (linkAttrs url) [Node.text oppNum]
         else Node.text oppNum]
    else bits
  if truthy closeDate then bits ++ [Node.text (" • closes ".toList ++ closeDate)] else bits

/-- The element `header` of `renderCard`. -/
def cardHeader (rec : Rec) : Node :=
  let title := safe rec.opportunity_title
  let url := safe rec.opportunity_url
  el "div".toList [("class".toList, "card-header".toList)] [
    el "div".toList [("class".toList, "card-title".toList)] [
      el "a".toList (linkAttrs (if truthy url then url else "#".toList))
        [Node.text (if truthy title then title else "Untitled".toList)]],
    el "div".toList [("class".toList, "card-subtitle".toList)] (subtitleBits rec)]

/-- The element `teamLine` of `renderCard`. -/
def cardTeamLine (rec : Rec) : Node :=
  let team := parseTeam rec.team_members
  el "div".toList [("class".toList, "pill-row".toList)]
    (team.map fun n => el "span".toList [("class".toList, "pill".toList)] [Node.text n])

/-- The element `body` of `renderCard`. -/
def cardBody (rec : Rec) : Node :=
  let proposed := el "div".toList [("class".toList, "section".toList)] [
    el "div".toList [("class".toList, "section-label".toList),
      ("text".toList, "Suggested title".toList)] [],
    el "div".toList [("class".toList, "section-text".toList),
      ("text".toList, safe rec.proposed_title)] []]
  let rationale := el "div".toList [("class".toList, "section".toList)] [
    el "div".toList [("class".toList, "section-label".toList),
      ("text".toList, "Rationale".toList)] [],
    el "div".toList [("class".toList, "section-text".toList),
      ("text".toList, safe rec.rationale)] []]
  let aims := parseAims rec.aims_or_projects
  let aimsList := el "ol".toList [("class".toList, "aims".toList)]
    (aims.map fun a => el "li".toList [] [Node.text a])
  let aimsWrap := el "div".toList [("class".toList, "section".toList)] [
    el "div".toList [("class".toList, "section-label".toList),
      ("text".toList,
        if rec.team_size_category = .str "large".toList then "Proposed projects".toList
        else "Proposed aims".toList)] [],
    aimsList]
  let metaBlock := renderMeta rec
  el "div".toList [("class".toList, "details-body".toList)]
    ([proposed, rationale, aimsWrap] ++ (match metaBlock with | some m => [m] | none => []))

/-- `details.open = true` on an element: the attribute `open` is set. -/
def setOpen : Node → Node
  | .element tag cls attributes children =>
    .element tag cls (setAttribute attributes "open".toList []) children
  | n => n

/-- `renderCard(rec, opts)`. -/
def renderCard (rec : Rec) (opts : Opts) : Node :=
  let header := cardHeader rec
  let teamLine := cardTeamLine rec
  let body := cardBody rec
  if opts.alwaysExpanded then
    el "div".toList [("class".toList, "card".toList)] [header, teamLine, body]
  else
    let details := el "details".toList [("class".toList, "details".toList)] [
      el "summary".toList [("class".toList, "summary".toList),
        ("text".toList, "Show rationale and aims".toList)] [],
      body]
    let details := if opts.openByDefault then setOpen details else details
    el "div".toList [("class".toList, "card".toList)] [header, teamLine, details]

/-! ## Statements about node trees and about the host -/

/-- The tags the view builder gives its elements. -/
def fixedTags : List Str :=
  ["div".toList, "a".toList, "span".toList, "ol".toList, "li".toList,
   "details".toList, "summary".toList]

/-- The class names the view builder gives its elements; an element without a
class has the empty class name. -/
def fixedClasses : List Str :=
  ["".toList, "card".toList, "card-header".toList, "card-title".toList,
   "card-subtitle".toList, "pill-row".toList, "pill".toList, "section".toList,
   "section-label".toList, "section-text".toList, "aims".toList,
   "details-body".toList, "details".toList, "summary".toList, "meta".toList,
   "meta-row".toList, "meta-label".toList, "meta-value".toList]

/-- The attributes with a fixed value the view builder sets. -/
def fixedAttrs : List (Str × Str) :=
  [("target".toList, "_blank".toList), ("rel".toList, "noopener noreferrer".toList),
   ("open".toList, "".toList)]

mutual
/-- No node of the tree was parsed from a string assigned to `innerHTML`. -/
def Node.markupFree : Node → Bool
  | .text _ => true
  | .markup _ => false
  | .element _ _ _ children => Node.markupFreeList children
/-- No node of the trees of a list was parsed from markup. -/
def Node.markupFreeList : List Node → Bool
  | [] => true
  | n :: ns => n.markupFree && Node.markupFreeList ns
end

mutual
/-- Everything in the tree except the data of text nodes and the values of
`href` attributes is fixed: every tag, class name and other attribute is one of
the constants of the view builder, and no node was parsed from markup. -/
def Node.fixedFrame : Node → Bool
  | .text _ => true
  | .markup _ => false
  | .element tag cls attributes children =>
    decide (tag ∈ fixedTags) && decide (cls ∈ fixedClasses) &&
    attributes.all (fun a => decide (a.1 = "href".toList) || decide (a ∈ fixedAttrs)) &&
    Node.fixedFrameList children
/-- Every tree of a list has a fixed frame. -/
def Node.fixedFrameList : List Node → Bool
  | [] => true
  | n :: ns => n.fixedFrame && Node.fixedFrameList ns
end

/-- The embedded payload named by `embeddedId` exists and parses to the record
collection `recs`: the id is a non-empty string, the document has an element
with that id, its text is not blank and `JSON.parse` turns the trimmed text
into the array `recs`. -/
def EmbeddedCollection (h : Host) (embeddedId : Option Str) (recs : List Rec) : Prop :=
  ∃ id txt, embeddedId = some id ∧ id ≠ [] ∧ h.getElementById id = some txt ∧
    trim txt ≠ [] ∧ h.jsonParse (trim txt) = .ok (.records recs)

/-- There is no embedded payload: none is configured (no id, or the empty id),
or the document has no element with the id, or the text of the element is empty
or blank, or the text is malformed. -/
def NoEmbedded (h : Host) (embeddedId : Option Str) : Prop :=
  embeddedId = none ∨ embeddedId = some [] ∨
  ∃ id, embeddedId = some id ∧
    (h.getElementById id = none ∨
     ∃ txt, h.getElementById id = some txt ∧
       (trim txt = [] ∨ ∃ e, h.jsonParse (trim txt) = .error e))

/-- The fetch of a path fails with the cause `cause`: `fetch` rejects with an
error whose cause is `cause` (a transport error), or it resolves to a response
whose status `status` is not a success, the cause being `HTTP status`. -/
def FetchFails (h : Host) (path cause : Str) : Prop :=
  (∃ e, h.fetch path = .rejected e ∧ cause = e.cause) ∨
  (∃ status body, h.fetch path = .response false status body ∧
    cause = "HTTP ".toList ++ (Nat.repr status).toList)

/-- The ids of a list of records, as `safe` reads them. -/
def idsOf (recs : List Rec) : List Str := recs.map fun r => safe r.opportunity_id

/-! ## Sample data -/

/-- Three records with the ids `A`, `B` and `C`. -/
def sampleRecs : List Rec :=
  [{ opportunity_id := .str "A".toList, opportunity_title := .str "Imaging".toList },
   { opportunity_id := .str "B".toList, opportunity_title := .str "Cohorts".toList },
   { opportunity_id := .str "C".toList }]

/-- A page with the embedded payload `teams-data`, whose text parses to
`sampleRecs`; every fetch is answered with the status 404. -/
def samplePage (protocol : Str) : Host where
  protocol := some protocol
  getElementById := fun id => if id = "teams-data".toList then some " [..] ".toList else none
  jsonParse := fun txt =>
    if txt = "[..]".toList then .ok (.records sampleRecs)
    else .error ⟨"Unexpected token".toList, "SyntaxError: Unexpected token".toList⟩
  fetch := fun _ => .response false 404 (.ok .falsy)

/-- Follows the words of the specification: the first `n` records, in the order
of the list, among those that have a non-empty `opportunity_id`. -/
def firstWithId (n : Nat) (recs : List Rec) : List Rec :=
  (recs.filter fun r => truthy (safe r.opportunity_id)).take n

/-! ## Statements about the card -/

/-- The link in the title of the header of `renderCard`. -/
def titleLink (rec : Rec) : Node :=
  let title := safe rec.opportunity_title
  let url := safe rec.opportunity_url
  el "a".toList (linkAttrs (if truthy url then url else "#".toList))
    [Node.text (if truthy title then title else "Untitled".toList)]

/-- A value is absent or empty: `safe` reads it as the empty string. -/
def JsVal.blank (v : JsVal) : Prop := safe v = []

/-- Every field of the record is absent or empty. -/
def Rec.blank (r : Rec) : Prop :=
  r.opportunity_id.blank ∧ r.opportunity_title.blank ∧ r.agency_name.blank ∧
  r.opportunity_number.blank ∧ r.opp_status.blank ∧ r.open_date.blank ∧
  r.close_date.blank ∧ r.opportunity_url.blank ∧ r.proposed_title.blank ∧
  r.rationale.blank ∧ r.team_members.blank ∧ r.aims_or_projects.blank ∧
  r.team_size_category.blank

/-- A `div` element with a class, no attribute, and the given children. -/
def divOf (cls : Str) (children : List Node) : Node :=
  Node.element "div".toList cls [] children

/-- A section of the detail body: its label, then its content. -/
def sectionOf (label : Str) (content : Node) : Node :=
  divOf "section".toList [divOf "section-label".toList [Node.text label], content]

/-- The header of a card without title, link and subtitle: the title reads
`Untitled`. -/
def blankHeader : Node :=
  divOf "card-header".toList [
    divOf "card-title".toList [
      Node.element "a".toList [] (linkAttrs "#".toList) [Node.text "Untitled".toList]],
    divOf "card-subtitle".toList []]

/-- The detail body of a card without content: the three sections with empty
text and an empty list of aims, and no metadata block. -/
def blankBody : Node :=
  divOf "details-body".toList [
    sectionOf "Suggested title".toList (divOf "section-text".toList []),
    sectionOf "Rationale".toList (divOf "section-text".toList []),
    sectionOf "Proposed aims".toList (Node.element "ol".toList "aims".toList [] [])]

/-- The disclosure control around a detail body, open or closed. -/
def disclosure (isOpen : Bool) (body : Node) : Node :=
  Node.element "details".toList "details".toList
    (if isOpen then [("open".toList, [])] else [])
    [Node.element "summary".toList "summary".toList [] [Node.text "Show rationale and aims".toList],
     body]

/-- The card of a record without content: the header, a row without team tags
and the detail body, shown as it is when the card is always expanded and inside
the disclosure control otherwise. -/
def blankCard (opts : Opts) : Node :=
  divOf "card".toList [blankHeader, divOf "pill-row".toList [],
    if opts.alwaysExpanded then blankBody else disclosure opts.openByDefault blankBody]

/-- A row of the metadata block with a plain value. -/
def metaTextRow (label v : Str) : Node :=
  divOf "meta-row".toList [
    divOf "meta-label".toList [Node.text label],
    divOf "meta-value".toList [Node.text v]]

/-- A row of the metadata block whose value is a link to `href`. -/
def metaLinkRow (label t href : Str) : Node :=
  divOf "meta-row".toList [
    divOf "meta-label".toList [Node.text label],
    divOf "meta-value".toList [Node.element "a".toList [] (linkAttrs href) [Node.text t]]]

/-- The row of a field with a plain value: present when the value of the field
is not empty once trimmed. -/
def textRowIf (label : Str) (value : JsVal) : List Node :=
  if trim (safe value) ≠ [] then [metaTextRow label (trim (safe value))] else []

/-- The row of a field whose value links to a URL when there is one: present
when the value is not empty once trimmed, a link when the trimmed URL is not
empty and a plain value otherwise. -/
def linkRowIf (label : Str) (value url : JsVal) : List Node :=
  if trim (safe value) ≠ [] then
    [if trim (safe url) ≠ [] then metaLinkRow label (trim (safe value)) (trim (safe url))
     else metaTextRow label (trim (safe value))]
  else []

/-- The metadata block around its rows. -/
def metaBlockOf (rows : List Node) : Node :=
  divOf "section".toList [
    divOf "section-label".toList [Node.text "Opportunity details".toList],
    divOf "meta".toList rows]

/-! ## Lemmas on strings -/

theorem truthy_iff (s : Str) : truthy s = true ↔ s ≠ [] := by
  cases s <;> simp [truthy]

theorem truthy_eq_decide (s : Str) : truthy s = decide (s ≠ []) := by
  cases s <;> simp [truthy]

theorem not_truthy_iff (s : Str) : (!truthy s) = true ↔ s = [] := by
  cases s <;> simp [truthy]

theorem includes_iff (s q : Str) : includes s q = true ↔ q <:+: s := by
  induction s with
  | nil => cases q <;> simp [includes]
  | cons c rest ih =>
    simp only [includes, Bool.or_eq_true, ih, List.isPrefixOf_iff_prefix,
      List.infix_cons_iff]

theorem singleton_infix_iff (c : Char) (s : Str) : [c] <:+: s ↔ c ∈ s := by
  constructor
  · intro h
    exact h.subset (List.mem_singleton_self c)
  · intro h
    obtain ⟨a, b, rfl⟩ := List.append_of_mem h
    exact ⟨a, b, by simp⟩

theorem includes_eq_decide (s q : Str) : includes s q = decide (q <:+: s) := by
  rw [Bool.eq_iff_iff, includes_iff]; simp

theorem join_eight (sep a b c d e f g h : Str) :
    join sep [a, b, c, d, e, f, g, h] =
      a ++ sep ++ b ++ sep ++ c ++ sep ++ d ++ sep ++ e ++ sep ++ f ++ sep ++ g ++ sep ++ h := by
  simp [join]

theorem trimStart_eq_nil {s : Str} (h : s.all isWhiteSpace = true) : trimStart s = [] := by
  unfold trimStart
  rw [List.dropWhile_eq_nil_iff]
  simpa using h

theorem trim_eq_nil_of_all {s : Str} (h : s.all isWhiteSpace = true) : trim s = [] := by
  simp [trim, trimStart_eq_nil h, trimEnd]

theorem dropWhile_head_not {p : Char → Bool} {s : Str} {c : Char} {rest : Str}
    (h : s.dropWhile p = c :: rest) : p c = false := by
  induction s with
  | nil => simp at h
  | cons a t ih =>
    by_cases ha : p a = true
    · simp [List.dropWhile, ha] at h; exact ih h
    · simp [List.dropWhile, ha] at h
      rw [← h.1]; simpa using ha

/-- A trimmed string that is not empty ends in a character that is not
white space. -/
theorem trim_has_visible {s : Str} (h : trim s ≠ []) :
    ∃ c ∈ trim s, isWhiteSpace c = false := by
  unfold trim trimEnd at *
  generalize hd : (trimStart s).reverse.dropWhile isWhiteSpace = d at *
  cases d with
  | nil => simp at h
  | cons c rest =>
    exact ⟨c, by simp, dropWhile_head_not hd⟩

theorem all_whiteSpace_of_trim_eq_nil {s : Str} (h : trim s = []) :
    s.all isWhiteSpace = true := by
  unfold trim trimEnd trimStart at h
  have h1 : (s.dropWhile isWhiteSpace).reverse.dropWhile isWhiteSpace = [] := by
    simpa using h
  rw [List.dropWhile_eq_nil_iff] at h1
  rw [List.all_eq_true]
  intro c hc
  by_contra hcon
  have hmem : c ∈ s.dropWhile isWhiteSpace := by
    clear h h1
    induction s with
    | nil => simp at hc
    | cons a t ih =>
      by_cases ha : isWhiteSpace a = true
      · rcases List.mem_cons.1 hc with rfl | ht
        · exact absurd ha hcon
        · simp only [List.dropWhile, ha]; exact ih ht
      · simp only [List.dropWhile, ha]; exact hc
  exact hcon (h1 c (by simpa using hmem))

theorem splitGo_single (c : Char) (s cur : Str) :
    splitGo [c] 0 cur s = List.splitOnP.go (· == c) s cur := by
  induction s generalizing cur with
  | nil => simp [splitGo, List.splitOnP.go]
  | cons a rest ih =>
    by_cases hac : a = c
    · subst hac
      simp [splitGo, List.splitOnP.go, List.isPrefixOf, ih]
    · have hca : ¬ c = a := fun h => hac h.symm
      simp [splitGo, List.splitOnP.go, List.isPrefixOf, ih, hac, hca]

/-- Splitting on a separator of one character gives the pieces between the
occurrences of that character. -/
theorem split_single (c : Char) (s : Str) : split s [c] = s.splitOn c := by
  simp [split, List.splitOn, List.splitOnP, splitGo_single]

theorem splitGo_ne_nil (sep : Str) (skip : Nat) (cur s : Str) : splitGo sep skip cur s ≠ [] := by
  induction s generalizing skip cur with
  | nil => simp [splitGo]
  | cons c rest ih =>
    cases skip with
    | succ k => simpa [splitGo] using ih k cur
    | zero =>
      by_cases hp : sep.isPrefixOf (c :: rest) = true
      · simp [splitGo, hp]
      · simpa [splitGo, hp] using ih 0 (c :: cur)

theorem join_cons (sep a : Str) {l : List Str} (hl : l ≠ []) :
    join sep (a :: l) = a ++ sep ++ join sep l := by
  cases l with
  | nil => exact absurd rfl hl
  | cons b t => rfl

theorem join_splitGo (sep : Str) (hsep : sep ≠ []) (skip : Nat) (cur s : Str) :
    join sep (splitGo sep skip cur s) = cur.reverse ++ s.drop skip := by
  induction s generalizing skip cur with
  | nil => simp [splitGo, join]
  | cons c rest ih =>
    cases skip with
    | succ k => simpa [splitGo] using ih k cur
    | zero =>
      by_cases hp : sep.isPrefixOf (c :: rest) = true
      · have hpre : sep <+: c :: rest := List.isPrefixOf_iff_prefix.1 hp
        obtain ⟨t, ht⟩ := hpre
        simp only [splitGo, hp, if_true]
        rw [join_cons _ _ (splitGo_ne_nil _ _ _ _), ih]
        cases sep with
        | nil => exact absurd rfl hsep
        | cons a sep' =>
          simp only [List.cons_append, List.cons.injEq] at ht
          obtain ⟨rfl, hrest⟩ := ht
          simp [← hrest]
      · simp only [splitGo, hp, Bool.false_eq_true, if_false]
        rw [ih]
        simp

/-- Joining the pieces of a split by the separator gives the string back. -/
theorem join_split (s sep : Str) (hsep : sep ≠ []) : join sep (split s sep) = s := by
  simp [split, join_splitGo sep hsep]

theorem splitNewlinesGo_filter (inRun : Bool) (cur s : Str) (hrun : inRun = true → cur = []) :
    ((splitNewlinesGo inRun cur s).map trim).filter truthy =
      ((List.splitOnP.go (· == '\n') s cur).map trim).filter truthy := by
  induction s generalizing inRun cur with
  | nil => simp [splitNewlinesGo, List.splitOnP.go]
  | cons c rest ih =>
    by_cases hc : c = '\n'
    · subst hc
      cases inRun with
      | true =>
        have hcur : cur = [] := hrun rfl
        subst hcur
        have hnil : truthy (trim []) = false := rfl
        simp only [splitNewlinesGo, if_true, List.splitOnP.go, beq_self_eq_true, List.reverse_nil,
          List.map_cons, List.filter_cons, hnil, Bool.false_eq_true, if_false]
        exact ih true [] (fun _ => rfl)
      | false =>
        simp only [splitNewlinesGo, if_true, Bool.false_eq_true, if_false, List.splitOnP.go,
          beq_self_eq_true, List.map_cons, List.filter_cons]
        rw [ih true [] (fun _ => rfl)]
    · have hb : (c == '\n') = false := by simpa using hc
      simp only [splitNewlinesGo, hc, if_false, List.splitOnP.go, hb, Bool.false_eq_true]
      exact ih false (c :: cur) (fun h => Bool.noConfusion h)

/-- Once the pieces are trimmed and the empty ones dropped, splitting on runs
of newlines and splitting on every single newline give the same list. -/
theorem splitNewlines_filter (s : Str) :
    ((splitNewlines s).map trim).filter truthy =
      ((s.splitOn '\n').map trim).filter truthy := by
  simp only [splitNewlines, List.splitOn, List.splitOnP]
  exact splitNewlinesGo_filter false [] s (fun h => Bool.noConfusion h)

/-! ## The filter -/

/-- C1: for every list of records `R` and every query whose trimmed,
lower-cased form `q` is not empty, `applyFilter(R, query)` is the sublist of
`R`, in the order of `R`, of the records for which the lower-cased string made
of the eight normalised fields joined by single spaces contains `q` as a
substring. -/
theorem applyFilter_matching (toLowerCase : Str → Str) (R : List Rec) (query : JsVal)
    (hq : toLowerCase (trim (safe query)) ≠ []) :
    applyFilter toLowerCase R query =
      R.filter fun r => decide (toLowerCase (trim (safe query)) <:+:
        toLowerCase (safe r.opportunity_title ++ [' '] ++ safe r.agency_name ++ [' '] ++
          safe r.opportunity_number ++ [' '] ++ safe r.opp_status ++ [' '] ++
          safe r.team_members ++ [' '] ++ safe r.proposed_title ++ [' '] ++
          safe r.rationale ++ [' '] ++ safe r.aims_or_projects)) := by
  have hnt : (!truthy (toLowerCase (trim (safe query)))) = false := by
    rw [Bool.not_eq_false', truthy_iff]; exact hq
  unfold applyFilter
  simp only [hnt, Bool.false_eq_true, if_false]
  congr 1
  funext r
  rw [includes_eq_decide]
  simp only [searchFields, List.map, join_eight]
  rfl

/-- C1 at a concrete input: the query `" GENome "` keeps the record whose
rationale mentions genomes and drops the record without a match; an absent
field counts as the empty string. -/
theorem applyFilter_matching_witness :
    asciiLower (trim (safe (.str " GENome ".toList))) ≠ [] ∧
    applyFilter asciiLower
      [{ opportunity_title := .str "Imaging".toList, agency_name := .str "NIH".toList },
       { opportunity_title := .str "Cohorts".toList, rationale := .str "Tumour genomes".toList }]
      (.str " GENome ".toList) =
      [{ opportunity_title := .str "Cohorts".toList, rationale := .str "Tumour genomes".toList }] :=
  ⟨by decide, (applyFilter_matching asciiLower _ _ (by decide)).trans (by decide)⟩

/-- C10: for every list of records `R` and every query that is empty, made of
white space only, or absent, `applyFilter(R, query)` is `R` itself. The lower
casing of the empty string is the empty string. -/
theorem applyFilter_blank (toLowerCase : Str → Str) (hlower : toLowerCase [] = [])
    (R : List Rec) (query : JsVal) (hq : (safe query).all isWhiteSpace = true) :
    applyFilter toLowerCase R query = R := by
  unfold applyFilter
  simp [trim_eq_nil_of_all hq, hlower, truthy]

/-- C10 at concrete inputs: a blank query and an absent query return the
records unchanged. -/
theorem applyFilter_blank_witness :
    applyFilter asciiLower [{ opportunity_id := .str "A".toList }, {}] (.str " \t ".toList) =
      [{ opportunity_id := .str "A".toList }, {}] ∧
    applyFilter asciiLower [{ opportunity_id := .str "A".toList }, {}] .undefined =
      [{ opportunity_id := .str "A".toList }, {}] :=
  ⟨applyFilter_blank asciiLower rfl _ _ (by decide),
   applyFilter_blank asciiLower rfl _ _ (by decide)⟩

/-! ## The field parsers -/

/-- C2: with `t` the trimmed text of the input (an absent input counts as the
empty string), `parseAims` returns `[]` when `t` is empty; otherwise, when `t`
contains `" | "`, the pieces of `t` split on `" | "`, each trimmed, the empty
ones dropped, in order; otherwise, when `t` contains a newline, the pieces of
`t` split on runs of newlines, each trimmed, the empty ones dropped, in order;
otherwise `[t]`. The four examples of the specification are part of the
statement. -/
theorem parseAims_cases (raw : JsVal) :
    (trim (safe raw) = [] → parseAims raw = []) ∧
    (trim (safe raw) ≠ [] → [' ', '|', ' '] <:+: trim (safe raw) →
      parseAims raw =
        ((split (trim (safe raw)) [' ', '|', ' ']).map trim).filter (fun p => decide (p ≠ []))) ∧
    (trim (safe raw) ≠ [] → ¬ [' ', '|', ' '] <:+: trim (safe raw) → '\n' ∈ trim (safe raw) →
      parseAims raw =
        ((splitNewlines (trim (safe raw))).map trim).filter (fun p => decide (p ≠ []))) ∧
    (trim (safe raw) ≠ [] → ¬ [' ', '|', ' '] <:+: trim (safe raw) → '\n' ∉ trim (safe raw) →
      parseAims raw = [trim (safe raw)]) ∧
    parseAims .undefined = [] ∧
    parseAims (.str "a | b | c".toList) = ["a".toList, "b".toList, "c".toList] ∧
    parseAims (.str "a\nb\n\nc".toList) = ["a".toList, "b".toList, "c".toList] ∧
    parseAims (.str "single line".toList) = ["single line".toList] ∧
    parseAims (.str "".toList) = [] := by
  have hfilter : ∀ l : List Str, l.filter truthy = l.filter (fun p => decide (p ≠ [])) := by
    intro l; congr 1; funext p; exact truthy_eq_decide p
  have hnl : ∀ t : Str, includes t "\n".toList = decide ('\n' ∈ t) := by
    intro t
    rw [includes_eq_decide]
    congr 1
    exact propext (singleton_infix_iff '\n' t)
  refine ⟨?_, ?_, ?_, ?_, by decide, by decide, by decide, by decide, by decide⟩
  · intro h
    simp [parseAims, h, truthy]
  · intro h hbar
    have ht : truthy (trim (safe raw)) = true := (truthy_iff _).2 h
    have hinc : includes (trim (safe raw)) " | ".toList = true := (includes_iff _ _).2 hbar
    simp only [parseAims, ht, hinc, Bool.not_true, Bool.false_eq_true, if_false, if_true,
      hfilter]
    rfl
  · intro h hbar hn
    have ht : truthy (trim (safe raw)) = true := (truthy_iff _).2 h
    have hinc : includes (trim (safe raw)) " | ".toList = false := by
      rw [includes_eq_decide]; exact decide_eq_false hbar
    simp only [parseAims, ht, hinc, hnl, hn, decide_True, Bool.not_true, Bool.false_eq_true,
      if_false, if_true, hfilter]
  · intro h hbar hn
    have ht : truthy (trim (safe raw)) = true := (truthy_iff _).2 h
    have hinc : includes (trim (safe raw)) " | ".toList = false := by
      rw [includes_eq_decide]; exact decide_eq_false hbar
    simp only [parseAims, ht, hinc, hnl, hn, decide_False, Bool.not_true, Bool.false_eq_true,
      if_false]

/-- C4: `parseTeam(raw)` is the list of the pieces of the input between the
occurrences of `;`, each trimmed, the empty ones dropped, in the original
order; an empty or absent input gives the empty list, and
`parseTeam("Alice; Bob ;; Carol")` is `["Alice", "Bob", "Carol"]`. -/
theorem parseTeam_pieces (raw : JsVal) :
    parseTeam raw = (((safe raw).splitOn ';').map trim).filter (fun p => decide (p ≠ [])) ∧
    parseTeam .undefined = [] ∧ parseTeam .null = [] ∧ parseTeam (.str "".toList) = [] ∧
    parseTeam (.str "Alice; Bob ;; Carol".toList) =
      ["Alice".toList, "Bob".toList, "Carol".toList] := by
  refine ⟨?_, by decide, by decide, by decide, by decide⟩
  unfold parseTeam
  rw [show ";".toList = [';'] from rfl, split_single]
  congr 1
  funext p
  exact truthy_eq_decide p

/-- C3: for every input, a string or an absent value, `parseTeam` and
`parseAims` return a list (both are total functions), and every element of
the list has a character that is not white space, so that no element is empty
or made of white space only. -/
theorem parse_elements_visible (raw : JsVal) :
    (∃ team, parseTeam raw = team ∧
      ∀ s ∈ team, s ≠ [] ∧ s.all isWhiteSpace = false ∧ ∃ c ∈ s, isWhiteSpace c = false) ∧
    (∃ aims, parseAims raw = aims ∧
      ∀ s ∈ aims, s ≠ [] ∧ s.all isWhiteSpace = false ∧ ∃ c ∈ s, isWhiteSpace c = false) := by
  have key : ∀ s : Str, trim s ≠ [] →
      trim s ≠ [] ∧ (trim s).all isWhiteSpace = false ∧ ∃ c ∈ trim s, isWhiteSpace c = false := by
    intro s hs
    obtain ⟨c, hc, hw⟩ := trim_has_visible hs
    refine ⟨hs, ?_, c, hc, hw⟩
    rw [Bool.eq_false_iff]
    intro hall
    rw [List.all_eq_true] at hall
    rw [hall c hc] at hw
    exact Bool.noConfusion hw
  have hmap : ∀ (l : List Str) (s : Str), s ∈ (l.map trim).filter truthy →
      s ≠ [] ∧ s.all isWhiteSpace = false ∧ ∃ c ∈ s, isWhiteSpace c = false := by
    intro l s hs
    rw [List.mem_filter, List.mem_map] at hs
    obtain ⟨⟨p, -, rfl⟩, hne⟩ := hs
    exact key p ((truthy_iff _).1 hne)
  refine ⟨⟨_, rfl, fun s hs => hmap _ s hs⟩, ⟨_, rfl, ?_⟩⟩
  intro s hs
  unfold parseAims at hs
  simp only at hs
  split at hs
  · simp at hs
  · rename_i ht
    split at hs
    · exact hmap _ s hs
    · split at hs
      · exact hmap _ s hs
      · rw [List.mem_singleton] at hs
        subst hs
        apply key
        intro hnil
        apply ht
        rw [hnil]
        rfl

/-! ## Top identifiers and the active subset -/

theorem JsSet.mem_foldl_add (xs : List Str) (s : JsSet) (x : Str) :
    x ∈ (xs.foldl JsSet.add s).members ↔ x ∈ s.members ∨ x ∈ xs := by
  induction xs generalizing s with
  | nil => simp
  | cons a rest ih =>
    rw [List.foldl_cons, ih]
    unfold JsSet.add
    by_cases ha : a ∈ s.members
    · simp only [ha, if_true, List.mem_cons]
      constructor
      · rintro (h | h)
        · exact Or.inl h
        · exact Or.inr (Or.inr h)
      · rintro (h | rfl | h)
        · exact Or.inl h
        · exact Or.inl ha
        · exact Or.inr h
    · simp only [ha, if_false, List.mem_append, List.mem_singleton, List.mem_cons]
      tauto

theorem JsSet.mem_ofArray (xs : List Str) (x : Str) :
    x ∈ (JsSet.ofArray xs).members ↔ x ∈ xs := by
  simp [JsSet.ofArray, JsSet.mem_foldl_add, JsSet.empty]

theorem JsSet.nodup_foldl_add (xs : List Str) (s : JsSet) (h : s.members.Nodup) :
    (xs.foldl JsSet.add s).members.Nodup := by
  induction xs generalizing s with
  | nil => simpa using h
  | cons a rest ih =>
    rw [List.foldl_cons]
    apply ih
    unfold JsSet.add
    by_cases ha : a ∈ s.members
    · simpa [ha] using h
    · simp only [ha, if_false]
      rw [List.nodup_append]
      refine ⟨h, List.nodup_singleton a, ?_⟩
      intro y hy hy'
      rw [List.mem_singleton] at hy'
      exact ha (hy' ▸ hy)

theorem sliceIndex_zero (len : Nat) : sliceIndex len 0 = 0 := by
  simp [sliceIndex]

theorem sliceIndex_of_nonneg (len : Nat) {n : Int} (h : 0 ≤ n) :
    sliceIndex len n = min n.toNat len := by
  unfold sliceIndex
  rw [if_neg (not_lt.2 h)]
  omega

theorem slice_zero_of_nonneg {α : Type} (xs : List α) {n : Int} (h : 0 ≤ n) :
    slice xs 0 n = xs.take n.toNat := by
  unfold slice
  simp only [sliceIndex_zero, sliceIndex_of_nonneg xs.length h, List.drop_zero, Nat.sub_zero]
  rcases Nat.le_total n.toNat xs.length with hle | hle
  · rw [Nat.min_eq_left hle]
  · rw [Nat.min_eq_right hle, List.take_of_length_le (le_refl _), List.take_of_length_le hle]

theorem slice_sublist {α : Type} (xs : List α) (start stop : Int) :
    (slice xs start stop).Sublist xs :=
  (List.take_sublist _ _).trans (List.drop_sublist _ _)

theorem has_computeTopIds (R : List Rec) (topN : Int) (id : Str) :
    (computeTopIds R topN).has id = true ↔
      id ≠ [] ∧ id ∈ idsOf (R.take (max 0 topN).toNat) := by
  unfold computeTopIds JsSet.has
  simp only [decide_eq_true_eq, JsSet.mem_ofArray, List.mem_filter, truthy_iff,
    slice_zero_of_nonneg R (le_max_left 0 topN), idsOf]
  exact and_comm

/-- C5: `computeTopIds(R, topN)` is the set of the non-empty `opportunity_id`
values of the first `max(0, topN)` records of `R`, taken in the order of `R`;
it holds each of them once, and it is the empty set when `topN ≤ 0`. -/
theorem computeTopIds_members (R : List Rec) (topN : Int) :
    (∀ id, (computeTopIds R topN).has id = true ↔
      id ≠ [] ∧ ∃ r ∈ R.take (max 0 topN).toNat, safe r.opportunity_id = id) ∧
    (computeTopIds R topN).members.Nodup ∧
    (topN ≤ 0 → computeTopIds R topN = JsSet.empty) := by
  refine ⟨?_, ?_, ?_⟩
  · intro id
    rw [has_computeTopIds]
    simp only [idsOf, List.mem_map]
  · exact JsSet.nodup_foldl_add _ _ (by simp [JsSet.empty])
  · intro h
    unfold computeTopIds
    rw [slice_zero_of_nonneg R (le_max_left 0 topN), max_eq_left h]
    rfl

/-- The ids of the `top` and of the `others` active subsets together are the
ids of all the records, whatever the records and `topN` are. -/
theorem mainBase_ids_cover (R : List Rec) (N : Int) (id : Str) :
    id ∈ idsOf (mainBase R "top".toList N) ∨ id ∈ idsOf (mainBase R "others".toList N) ↔
      id ∈ idsOf R := by
  have htop : mainBase R "top".toList N = slice R 0 N := by
    simp [mainBase]
  have hothers : mainBase R "others".toList N =
      R.filter fun r => !(computeTopIds R N).has (safe r.opportunity_id) := by
    unfold mainBase
    rw [if_neg (by decide)]
    simp
  rw [htop, hothers]
  constructor
  · rintro (h | h)
    · exact (List.Sublist.map _ (slice_sublist R 0 N)).subset h
    · exact (List.Sublist.map _ (List.filter_sublist R)).subset h
  · intro h
    by_cases hin : (computeTopIds R N).has id = true
    · left
      rw [has_computeTopIds] at hin
      rcases le_or_lt 0 N with hN | hN
      · rw [slice_zero_of_nonneg R hN]
        rw [max_eq_right hN] at hin
        exact hin.2
      · rw [max_eq_left hN.le] at hin
        simp [idsOf] at hin
    · right
      simp only [idsOf, List.mem_map] at h ⊢
      obtain ⟨r, hr, rfl⟩ := h
      exact ⟨r, List.mem_filter.2 ⟨hr, by simpa using hin⟩, rfl⟩

/-- C6: for records whose ids are non-empty and pairwise distinct, and for
every `N`, the ids of the `top` active subset (`recsAll.slice(0, topN)`) and
the ids of the `others` active subset (the records whose id is not in
`computeTopIds(R, N)`) together are the ids of `R`, and each of the two subsets
lists its records in the order they have in `R`. -/
theorem active_subsets_cover (R : List Rec) (N : Int)
    (hne : ∀ r ∈ R, safe r.opportunity_id ≠ []) (hnd : (idsOf R).Nodup) :
    mainBase R "top".toList N = slice R 0 N ∧
    mainBase R "others".toList N =
      R.filter (fun r => !(computeTopIds R N).has (safe r.opportunity_id)) ∧
    (idsOf (mainBase R "top".toList N)).toFinset ∪
      (idsOf (mainBase R "others".toList N)).toFinset = (idsOf R).toFinset ∧
    (mainBase R "top".toList N).Sublist R ∧
    (mainBase R "others".toList N).Sublist R := by
  have htop : mainBase R "top".toList N = slice R 0 N := by
    simp [mainBase]
  have hothers : mainBase R "others".toList N =
      R.filter fun r => !(computeTopIds R N).has (safe r.opportunity_id) := by
    unfold mainBase
    rw [if_neg (by decide)]
    simp
  refine ⟨htop, hothers, ?_, ?_, ?_⟩
  · ext id
    rw [Finset.mem_union, List.mem_toFinset, List.mem_toFinset, List.mem_toFinset]
    exact mainBase_ids_cover R N id
  · rw [htop]; exact slice_sublist R 0 N
  · rw [hothers]; exact List.filter_sublist R

/-- C6 at concrete inputs: three records with the ids `A`, `B`, `C`, for
`N = 2` and for `N = -1`. -/
theorem active_subsets_cover_witness :
    ((∀ r ∈ sampleRecs, safe r.opportunity_id ≠ []) ∧ (idsOf sampleRecs).Nodup) ∧
    ((idsOf (mainBase sampleRecs "top".toList 2)).toFinset ∪
      (idsOf (mainBase sampleRecs "others".toList 2)).toFinset = (idsOf sampleRecs).toFinset ∧
     (mainBase sampleRecs "top".toList 2).Sublist sampleRecs ∧
     (mainBase sampleRecs "others".toList 2).Sublist sampleRecs) ∧
    ((idsOf (mainBase sampleRecs "top".toList (-1))).toFinset ∪
      (idsOf (mainBase sampleRecs "others".toList (-1))).toFinset = (idsOf sampleRecs).toFinset) :=
  ⟨⟨by decide, by decide⟩,
   (active_subsets_cover sampleRecs 2 (by decide) (by decide)).2.2,
   (active_subsets_cover sampleRecs (-1) (by decide) (by decide)).2.2.1⟩

/-! ## The data loader -/

theorem tryEmbedded_of_collection {h : Host} {embeddedId : Option Str} {recs : List Rec}
    (hemb : EmbeddedCollection h embeddedId recs) :
    tryEmbedded h embeddedId = some (.records recs) := by
  obtain ⟨id, txt, rfl, hid, hel, htxt, hparse⟩ := hemb
  have hid' : truthy id = true := (truthy_iff id).2 hid
  have htrim : trim (if truthy txt = true then txt else []) = trim txt := by
    by_cases ht : truthy txt = true
    · rw [if_pos ht]
    · rw [if_neg ht]
      have : txt = [] := by
        cases txt with
        | nil => rfl
        | cons a t => simp [truthy] at ht
      rw [this]
  have htxt' : truthy (trim txt) = true := (truthy_iff _).2 htxt
  simp only [tryEmbedded, hid', hel, htrim, htxt', hparse, Bool.not_true, Bool.false_eq_true,
    if_false]

theorem tryEmbedded_of_none {h : Host} {embeddedId : Option Str}
    (hno : NoEmbedded h embeddedId) : tryEmbedded h embeddedId = none := by
  have htrim : ∀ txt : Str, trim (if truthy txt = true then txt else []) = trim txt := by
    intro txt
    cases txt with
    | nil => rfl
    | cons a t => simp [truthy]
  rcases hno with rfl | rfl | ⟨id, rfl, hel | ⟨txt, hel, hbad⟩⟩
  · rfl
  · rfl
  · by_cases hid : truthy id = true
    · simp only [tryEmbedded, hid, hel, Bool.not_true, Bool.false_eq_true, if_false]
    · simp only [tryEmbedded, hid, Bool.not_false, if_true]
  · by_cases hid : truthy id = true
    · rcases hbad with hblank | ⟨e, hparse⟩
      · have ht : truthy (trim txt) = false := by rw [hblank]; rfl
        simp only [tryEmbedded, hid, hel, htrim, ht, Bool.not_true, Bool.not_false,
          Bool.false_eq_true, if_false, if_true]
      · by_cases ht : truthy (trim txt) = true
        · simp only [tryEmbedded, hid, hel, htrim, ht, hparse, Bool.not_true,
            Bool.false_eq_true, if_false]
        · simp only [tryEmbedded, hid, hel, htrim, ht, Bool.not_true, Bool.not_false,
            Bool.false_eq_true, if_false, if_true]
    · simp only [tryEmbedded, hid, Bool.not_false, if_true]

theorem loadTeams_file_of_embedded (h : Host) (jsonPath embeddedId : Option Str) (p : Payload)
    (hfile : h.protocol = some "file:".toList) (htry : tryEmbedded h embeddedId = some p)
    (hp : p.truthy = true) :
    loadTeams h jsonPath embeddedId = ⟨.ok p, []⟩ := by
  unfold loadTeams
  simp only [htry, hfile, embeddedTruthy, hp, if_true, beq_self_eq_true]

/-- C7: in a local-file context (`window.location.protocol` is `file:`), when
the embedded payload named by `embeddedId` exists and parses to a record
collection, `loadTeams` returns that collection and calls `fetch` on no path,
for every remote path, present or absent, and whatever `fetch` would answer. -/
theorem loadTeams_file_embedded (h : Host) (jsonPath embeddedId : Option Str)
    (recs : List Rec) (fetch : Str → FetchOutcome)
    (hfile : h.protocol = some "file:".toList)
    (hemb : EmbeddedCollection h embeddedId recs) :
    (loadTeams { h with fetch := fetch } jsonPath embeddedId).outcome = .ok (.records recs) ∧
    (loadTeams { h with fetch := fetch } jsonPath embeddedId).fetched = [] := by
  have htry : tryEmbedded { h with fetch := fetch } embeddedId = some (.records recs) :=
    tryEmbedded_of_collection hemb
  have hfile' : ({ h with fetch := fetch } : Host).protocol = some "file:".toList := hfile
  rw [loadTeams_file_of_embedded _ jsonPath embeddedId _ hfile' htry rfl]
  exact ⟨rfl, rfl⟩

/-- C7 at a concrete input: a page opened from disk with an embedded payload
and a configured remote path, the fetch of which would give a 404 response or
a transport error. -/
theorem loadTeams_file_embedded_witness :
    (samplePage "file:".toList).protocol = some "file:".toList ∧
    (loadTeams (samplePage "file:".toList) (some "data/teams.json".toList)
      (some "teams-data".toList)).outcome = .ok (.records sampleRecs) ∧
    (loadTeams { samplePage "file:".toList with
        fetch := fun _ => .rejected ⟨"Failed to fetch".toList, "TypeError".toList⟩ }
      (some "data/teams.json".toList) (some "teams-data".toList)).fetched = [] :=
  ⟨rfl,
   (loadTeams_file_embedded (samplePage "file:".toList) (some "data/teams.json".toList)
      (some "teams-data".toList) sampleRecs (samplePage "file:".toList).fetch rfl
      ⟨"teams-data".toList, " [..] ".toList, rfl, by decide, rfl, by decide, rfl⟩).1,
   (loadTeams_file_embedded (samplePage "file:".toList) (some "data/teams.json".toList)
      (some "teams-data".toList) sampleRecs _ rfl
      ⟨"teams-data".toList, " [..] ".toList, rfl, by decide, rfl, by decide, rfl⟩).2⟩

theorem cause_http (status : Nat) :
    (Thrown.error ("HTTP ".toList ++ (Nat.repr status).toList)).cause =
      "HTTP ".toList ++ (Nat.repr status).toList := by
  simp [Thrown.cause, Thrown.error, truthy]

/-- In a networked context with a remote path whose fetch fails, `loadTeams`
calls `fetch` once and then returns the embedded payload when it is truthy and
throws the error naming the path and the cause otherwise. -/
theorem loadTeams_of_fetchFails (h : Host) (path cause : Str) (embeddedId : Option Str)
    (hnet : h.protocol ≠ some "file:".toList) (hpath : path ≠ [])
    (hfail : FetchFails h path cause) :
    loadTeams h (some path) embeddedId =
      match embeddedTruthy (tryEmbedded h embeddedId) with
      | some p => ⟨.ok p, [path]⟩
      | none =>
        ⟨.error ("Failed to load data from ".toList ++ path ++ ": ".toList ++ cause), [path]⟩ := by
  have hb : (h.protocol == some "file:".toList) = false := by
    rw [beq_eq_false_iff_ne]; exact hnet
  have hp : Option.filter truthy (some path) = some path := by
    simp [Option.filter, (truthy_iff path).2 hpath]
  unfold loadTeams
  simp only [hb, hp]
  rcases hfail with ⟨e, hf, rfl⟩ | ⟨status, body, hf, rfl⟩
  · rw [hf]
  · rw [hf]
    simp only [cause_http]

/-- C8: in a networked context (the protocol is not `file:`), with a remote
path whose fetch fails by a transport error or a non-success status: when the
embedded payload exists and parses to a record collection, `loadTeams` returns
that collection; when there is no embedded payload (none configured, missing,
empty or malformed), `loadTeams` throws an error whose message contains the
remote path and the cause of the failure. -/
theorem loadTeams_fetch_failure (h : Host) (path cause : Str) (embeddedId : Option Str)
    (hnet : h.protocol ≠ some "file:".toList) (hpath : path ≠ [])
    (hfail : FetchFails h path cause) :
    (∀ recs, EmbeddedCollection h embeddedId recs →
      (loadTeams h (some path) embeddedId).outcome = .ok (.records recs)) ∧
    (NoEmbedded h embeddedId →
      ∃ msg, (loadTeams h (some path) embeddedId).outcome = .error msg ∧
        msg = "Failed to load data from ".toList ++ path ++ ": ".toList ++ cause ∧
        path <:+: msg ∧ cause <:+: msg) := by
  rw [loadTeams_of_fetchFails h path cause embeddedId hnet hpath hfail]
  constructor
  · intro recs hemb
    rw [tryEmbedded_of_collection hemb]
    rfl
  · intro hno
    rw [tryEmbedded_of_none hno]
    refine ⟨_, rfl, rfl, ?_, ?_⟩
    · exact ⟨"Failed to load data from ".toList, ": ".toList ++ cause, by simp⟩
    · exact ⟨"Failed to load data from ".toList ++ path ++ ": ".toList, [], by simp⟩

/-- C8 at a concrete input: a page served over https whose remote path
answers 404. With the embedded payload `teams-data` the records of the payload
are returned; with an id no element has, the load throws
`Failed to load data from data/teams.json: HTTP 404`. -/
theorem loadTeams_fetch_failure_witness :
    (loadTeams (samplePage "https:".toList) (some "data/teams.json".toList)
      (some "teams-data".toList)).outcome = .ok (.records sampleRecs) ∧
    (loadTeams (samplePage "https:".toList) (some "data/teams.json".toList)
      (some "absent".toList)).outcome =
      .error "Failed to load data from data/teams.json: HTTP 404".toList :=
  have key := fun embeddedId =>
    loadTeams_fetch_failure (samplePage "https:".toList) "data/teams.json".toList
      "HTTP 404".toList embeddedId (by decide) (by decide)
      (Or.inr ⟨404, .ok .falsy, rfl, by decide⟩)
  ⟨(key (some "teams-data".toList)).1 sampleRecs
      ⟨"teams-data".toList, " [..] ".toList, rfl, by decide, rfl, by decide, rfl⟩,
   by
    obtain ⟨msg, hout, hmsg, -, -⟩ :=
      (key (some "absent".toList)).2 (Or.inr (Or.inr ⟨"absent".toList, rfl, Or.inl rfl⟩))
    rw [hout, hmsg]
    rfl⟩

/-! ## The view builder -/

theorem el_nil (tag : Str) (children : List Node) :
    el tag [] children = .element tag [] [] children := rfl

theorem el_class (tag cls : Str) (children : List Node) :
    el tag [("class".toList, cls)] children = .element tag cls [] children := rfl

theorem el_class_text (tag cls txt : Str) :
    el tag [("class".toList, cls), ("text".toList, txt)] [] =
      .element tag cls [] (if truthy txt then [Node.text txt] else []) := by
  simp [el, elStep]

theorem el_link (href : Str) (children : List Node) :
    el "a".toList (linkAttrs href) children = .element "a".toList [] (linkAttrs href) children :=
  rfl

/-- The `html` path of `el` is what puts a markup node into a tree. -/
theorem el_html_markup (tag v : Str) (children : List Node) :
    (el tag [("html".toList, v)] children).markupFree = false := by
  simp [el, elStep, Node.markupFree, Node.markupFreeList]

theorem fixedFrameList_append (a b : List Node) :
    Node.fixedFrameList (a ++ b) = (Node.fixedFrameList a && Node.fixedFrameList b) := by
  induction a with
  | nil => simp [Node.fixedFrameList]
  | cons n ns ih => simp [Node.fixedFrameList, ih, Bool.and_assoc]

theorem fixedFrameList_map {α : Type} (f : α → Node) (l : List α)
    (hf : ∀ x, (f x).fixedFrame = true) : Node.fixedFrameList (l.map f) = true := by
  induction l with
  | nil => rfl
  | cons a t ih => simp [Node.fixedFrameList, hf, ih]

mutual
theorem markupFree_of_fixedFrame : ∀ n : Node, n.fixedFrame = true → n.markupFree = true
  | .text _, _ => rfl
  | .markup _, h => by simp [Node.fixedFrame] at h
  | .element _ _ _ children, h => by
    simp only [Node.fixedFrame, Bool.and_eq_true] at h
    simp only [Node.markupFree]
    exact markupFreeList_of_fixedFrameList children h.2
theorem markupFreeList_of_fixedFrameList :
    ∀ ns : List Node, Node.fixedFrameList ns = true → Node.markupFreeList ns = true
  | [], _ => rfl
  | n :: ns, h => by
    simp only [Node.fixedFrameList, Bool.and_eq_true] at h
    simp only [Node.markupFreeList, Bool.and_eq_true]
    exact ⟨markupFree_of_fixedFrame n h.1, markupFreeList_of_fixedFrameList ns h.2⟩
end

theorem fixedFrameList_cons_true {n : Node} {ns : List Node} (h1 : n.fixedFrame = true)
    (h2 : Node.fixedFrameList ns = true) : Node.fixedFrameList (n :: ns) = true := by
  simp only [Node.fixedFrameList, h1, h2, Bool.and_self]

theorem fixedFrameList_nil : Node.fixedFrameList [] = true := rfl

theorem fixedFrameList_append_true {a b : List Node} (ha : Node.fixedFrameList a = true)
    (hb : Node.fixedFrameList b = true) : Node.fixedFrameList (a ++ b) = true := by
  rw [fixedFrameList_append, ha, hb]; rfl

theorem fixedFrame_element {tag cls : Str} {attributes : List (Str × Str)}
    {children : List Node} (htag : tag ∈ fixedTags) (hcls : cls ∈ fixedClasses)
    (hattrs : ∀ a ∈ attributes, a.1 = "href".toList ∨ a ∈ fixedAttrs)
    (hch : Node.fixedFrameList children = true) :
    (Node.element tag cls attributes children).fixedFrame = true := by
  simp only [Node.fixedFrame, Bool.and_eq_true, decide_eq_true_eq, List.all_eq_true,
    Bool.or_eq_true]
  exact ⟨⟨⟨htag, hcls⟩, hattrs⟩, hch⟩

theorem fixedFrame_el_class {tag cls : Str} {children : List Node} (htag : tag ∈ fixedTags)
    (hcls : cls ∈ fixedClasses) (hch : Node.fixedFrameList children = true) :
    (el tag [("class".toList, cls)] children).fixedFrame = true := by
  rw [el_class]
  exact fixedFrame_element htag hcls (fun a ha => absurd ha (List.not_mem_nil a)) hch

theorem fixedFrame_el_text {tag cls : Str} (txt : Str) (htag : tag ∈ fixedTags)
    (hcls : cls ∈ fixedClasses) :
    (el tag [("class".toList, cls), ("text".toList, txt)] []).fixedFrame = true := by
  rw [el_class_text]
  apply fixedFrame_element htag hcls (fun a ha => absurd ha (List.not_mem_nil a))
  split
  · exact fixedFrameList_cons_true rfl fixedFrameList_nil
  · exact fixedFrameList_nil

theorem fixedFrame_link (href : Str) {children : List Node}
    (hch : Node.fixedFrameList children = true) :
    (el "a".toList (linkAttrs href) children).fixedFrame = true := by
  rw [el_link]
  apply fixedFrame_element (by decide) (by decide) _ hch
  intro a ha
  simp only [linkAttrs, List.mem_cons, List.mem_singleton, List.not_mem_nil, or_false] at ha
  rcases ha with rfl | rfl | rfl
  · exact Or.inl rfl
  · exact Or.inr (by decide)
  · exact Or.inr (by decide)

theorem fixedFrame_text (data : Str) : (Node.text data).fixedFrame = true := rfl

theorem fixedFrameList_addText (rows : List Node) (label : Str) (value : JsVal)
    (hrows : Node.fixedFrameList rows = true) :
    Node.fixedFrameList (addText rows label value) = true := by
  unfold addText
  simp only
  split
  · exact hrows
  · exact fixedFrameList_append_true hrows
      (fixedFrameList_cons_true
        (fixedFrame_el_class (by decide) (by decide)
          (fixedFrameList_cons_true (fixedFrame_el_text _ (by decide) (by decide))
            (fixedFrameList_cons_true (fixedFrame_el_text _ (by decide) (by decide))
              fixedFrameList_nil)))
        fixedFrameList_nil)

theorem fixedFrameList_addLink (rows : List Node) (label : Str) (text href : JsVal)
    (hrows : Node.fixedFrameList rows = true) :
    Node.fixedFrameList (addLink rows label text href) = true := by
  unfold addLink
  simp only
  split
  · exact hrows
  · split
    · exact fixedFrameList_addText rows label _ hrows
    · exact fixedFrameList_append_true hrows
        (fixedFrameList_cons_true
          (fixedFrame_el_class (by decide) (by decide)
            (fixedFrameList_cons_true (fixedFrame_el_text _ (by decide) (by decide))
              (fixedFrameList_cons_true
                (fixedFrame_el_class (by decide) (by decide)
                  (fixedFrameList_cons_true
                    (fixedFrame_link _ (fixedFrameList_cons_true (fixedFrame_text _)
                      fixedFrameList_nil))
                    fixedFrameList_nil))
                fixedFrameList_nil)))
          fixedFrameList_nil)

theorem fixedFrameList_metaRows (rec : Rec) : Node.fixedFrameList (metaRows rec) = true := by
  unfold metaRows
  exact fixedFrameList_addText _ _ _ (fixedFrameList_addText _ _ _ (fixedFrameList_addText _ _ _
    (fixedFrameList_addLink _ _ _ _ (fixedFrameList_addText _ _ _ fixedFrameList_nil))))

theorem fixedFrame_renderMeta (rec : Rec) (m : Node) (h : renderMeta rec = some m) :
    m.fixedFrame = true := by
  unfold renderMeta at h
  simp only at h
  split at h
  · exact Option.noConfusion h
  · rw [← Option.some.inj h]
    exact fixedFrame_el_class (by decide) (by decide)
      (fixedFrameList_cons_true (fixedFrame_el_text _ (by decide) (by decide))
        (fixedFrameList_cons_true
          (fixedFrame_el_class (by decide) (by decide) (fixedFrameList_metaRows rec))
          fixedFrameList_nil))

theorem fixedFrameList_subtitleBits (rec : Rec) :
    Node.fixedFrameList (subtitleBits rec) = true := by
  unfold subtitleBits
  simp only
  have h1 : Node.fixedFrameList
      (if truthy (safe rec.agency_name) = true then
        ([] : List Node) ++ [Node.text (safe rec.agency_name)] else []) = true := by
    split
    · exact fixedFrameList_cons_true (fixedFrame_text _) fixedFrameList_nil
    · exact fixedFrameList_nil
  generalize (if truthy (safe rec.agency_name) = true then
    ([] : List Node) ++ [Node.text (safe rec.agency_name)] else []) = bits1 at h1
  have h2 : Node.fixedFrameList
      (if truthy (safe rec.opportunity_number) = true then
        bits1 ++ [Node.text " • ".toList] ++
          [if truthy (safe rec.opportunity_url) = true then
            el "a".toList (linkAttrs (safe rec.opportunity_url))
              [Node.text (safe rec.opportunity_number)]
           else Node.text (safe rec.opportunity_number)]
       else bits1) = true := by
    split
    · refine fixedFrameList_append_true (fixedFrameList_append_true h1
        (fixedFrameList_cons_true (fixedFrame_text _) fixedFrameList_nil))
        (fixedFrameList_cons_true ?_ fixedFrameList_nil)
      split
      · exact fixedFrame_link _ (fixedFrameList_cons_true (fixedFrame_text _) fixedFrameList_nil)
      · exact fixedFrame_text _
    · exact h1
  generalize (if truthy (safe rec.opportunity_number) = true then
        bits1 ++ [Node.text " • ".toList] ++
          [if truthy (safe rec.opportunity_url) = true then
            el "a".toList (linkAttrs (safe rec.opportunity_url))
              [Node.text (safe rec.opportunity_number)]
           else Node.text (safe rec.opportunity_number)]
       else bits1) = bits2 at h2
  split
  · exact fixedFrameList_append_true h2
      (fixedFrameList_cons_true (fixedFrame_text _) fixedFrameList_nil)
  · exact h2

theorem fixedFrame_cardHeader (rec : Rec) : (cardHeader rec).fixedFrame = true := by
  unfold cardHeader
  exact fixedFrame_el_class (by decide) (by decide)
    (fixedFrameList_cons_true
      (fixedFrame_el_class (by decide) (by decide)
        (fixedFrameList_cons_true
          (fixedFrame_link _ (fixedFrameList_cons_true (fixedFrame_text _) fixedFrameList_nil))
          fixedFrameList_nil))
      (fixedFrameList_cons_true
        (fixedFrame_el_class (by decide) (by decide) (fixedFrameList_subtitleBits rec))
        fixedFrameList_nil))

theorem fixedFrame_cardTeamLine (rec : Rec) : (cardTeamLine rec).fixedFrame = true := by
  unfold cardTeamLine
  exact fixedFrame_el_class (by decide) (by decide)
    (fixedFrameList_map _ _ fun n =>
      fixedFrame_el_class (by decide) (by decide)
        (fixedFrameList_cons_true (fixedFrame_text n) fixedFrameList_nil))

theorem fixedFrame_cardBody (rec : Rec) : (cardBody rec).fixedFrame = true := by
  unfold cardBody
  refine fixedFrame_el_class (by decide) (by decide) (fixedFrameList_append_true ?_ ?_)
  · refine fixedFrameList_cons_true ?_ (fixedFrameList_cons_true ?_
      (fixedFrameList_cons_true ?_ fixedFrameList_nil))
    · exact fixedFrame_el_class (by decide) (by decide)
        (fixedFrameList_cons_true (fixedFrame_el_text _ (by decide) (by decide))
          (fixedFrameList_cons_true (fixedFrame_el_text _ (by decide) (by decide))
            fixedFrameList_nil))
    · exact fixedFrame_el_class (by decide) (by decide)
        (fixedFrameList_cons_true (fixedFrame_el_text _ (by decide) (by decide))
          (fixedFrameList_cons_true (fixedFrame_el_text _ (by decide) (by decide))
            fixedFrameList_nil))
    · refine fixedFrame_el_class (by decide) (by decide)
        (fixedFrameList_cons_true (fixedFrame_el_text _ (by decide) (by decide))
          (fixedFrameList_cons_true ?_ fixedFrameList_nil))
      refine fixedFrame_el_class (by decide) (by decide) (fixedFrameList_map _ _ fun a => ?_)
      rw [el_nil]
      exact fixedFrame_element (by decide) (by decide)
        (fun x hx => absurd hx (List.not_mem_nil x))
        (fixedFrameList_cons_true (fixedFrame_text a) fixedFrameList_nil)
  · cases hm : renderMeta rec with
    | none => exact fixedFrameList_nil
    | some m =>
      exact fixedFrameList_cons_true (fixedFrame_renderMeta rec m hm) fixedFrameList_nil

theorem fixedFrame_setOpen (n : Node) (h : n.fixedFrame = true) :
    (setOpen n).fixedFrame = true := by
  cases n with
  | text data => exact h
  | markup html => exact h
  | element tag cls attributes children =>
    simp only [Node.fixedFrame, Bool.and_eq_true, decide_eq_true_eq, List.all_eq_true,
      Bool.or_eq_true] at h
    obtain ⟨⟨⟨htag, hcls⟩, hattrs⟩, hch⟩ := h
    refine fixedFrame_element htag hcls ?_ hch
    intro a ha
    unfold setAttribute at ha
    split at ha
    · rw [List.mem_map] at ha
      obtain ⟨b, hb, rfl⟩ := ha
      split
      · exact Or.inr (by decide)
      · exact hattrs b hb
    · rcases List.mem_append.1 ha with ha | ha
      · exact hattrs a ha
      · rw [List.mem_singleton] at ha
        subst ha
        exact Or.inr (by decide)

theorem fixedFrame_renderCard (rec : Rec) (opts : Opts) :
    (renderCard rec opts).fixedFrame = true := by
  have hrest : Node.fixedFrameList [cardHeader rec, cardTeamLine rec, cardBody rec] = true :=
    fixedFrameList_cons_true (fixedFrame_cardHeader rec)
      (fixedFrameList_cons_true (fixedFrame_cardTeamLine rec)
        (fixedFrameList_cons_true (fixedFrame_cardBody rec) fixedFrameList_nil))
  have hdetails : (el "details".toList [("class".toList, "details".toList)] [
      el "summary".toList [("class".toList, "summary".toList),
        ("text".toList, "Show rationale and aims".toList)] [],
      cardBody rec]).fixedFrame = true :=
    fixedFrame_el_class (by decide) (by decide)
      (fixedFrameList_cons_true (fixedFrame_el_text _ (by decide) (by decide))
        (fixedFrameList_cons_true (fixedFrame_cardBody rec) fixedFrameList_nil))
  unfold renderCard
  simp only
  split
  · exact fixedFrame_el_class (by decide) (by decide) hrest
  · refine fixedFrame_el_class (by decide) (by decide)
      (fixedFrameList_cons_true (fixedFrame_cardHeader rec)
        (fixedFrameList_cons_true (fixedFrame_cardTeamLine rec)
          (fixedFrameList_cons_true ?_ fixedFrameList_nil)))
    split
    · exact fixedFrame_setOpen _ hdetails
    · exact hdetails

/-- C9: for every record and every render options, the tree `renderCard`
returns, the metadata block of `renderMeta` included, has no node built through
the `html` path of `el`, and strings of the record occur in it only as the data
of text nodes (which is how `createTextNode` and the `text` path of `el` insert
them) and as values of `href` attributes: every tag, every class name and every
other attribute of the tree is one of the constants of the view builder. -/
theorem renderCard_text_only (rec : Rec) (opts : Opts) :
    (renderCard rec opts).markupFree = true ∧ (renderCard rec opts).fixedFrame = true :=
  ⟨markupFree_of_fixedFrame _ (fixedFrame_renderCard rec opts), fixedFrame_renderCard rec opts⟩

/-! ## Matching across fields -/

theorem infix_append_cons_of_not_mem {q x y : Str} {c : Char} (hc : c ∉ q)
    (h : q <:+: x ++ c :: y) : q <:+: x ∨ q <:+: y := by
  induction x with
  | nil =>
    rw [List.nil_append, List.infix_cons_iff] at h
    rcases h with h | h
    · rcases List.prefix_cons_iff.1 h with rfl | ⟨t, rfl, -⟩
      · exact Or.inl (List.nil_infix)
      · exact absurd (List.mem_cons_self c t) hc
    · exact Or.inr h
  | cons a x' ih =>
    rw [List.cons_append, List.infix_cons_iff] at h
    rcases h with h | h
    · have h2 : (a :: x') ++ [c] <+: a :: (x' ++ c :: y) := ⟨y, by simp⟩
      rcases List.prefix_or_prefix_of_prefix h h2 with h3 | h3
      · rcases List.prefix_concat_iff.1 h3 with rfl | h4
        · exact absurd (by simp) hc
        · exact Or.inl h4.isInfix
      · exact absurd (h3.subset (by simp)) hc
    · rcases ih h with h | h
      · exact Or.inl (List.infix_cons h)
      · exact Or.inr h

theorem infix_join_of_not_mem {q : Str} {c : Char} (hc : c ∉ q) :
    ∀ {fs : List Str}, fs ≠ [] → q <:+: join [c] fs → ∃ f ∈ fs, q <:+: f
  | [], h, _ => absurd rfl h
  | [a], _, hq => ⟨a, List.mem_singleton_self a, hq⟩
  | a :: b :: rest, _, hq => by
    have hq' : q <:+: a ++ c :: join [c] (b :: rest) := by
      simpa [join] using hq
    rcases infix_append_cons_of_not_mem hc hq' with h | h
    · exact ⟨a, List.mem_cons_self _ _, h⟩
    · obtain ⟨f, hf, hqf⟩ := infix_join_of_not_mem hc (List.cons_ne_nil b rest) h
      exact ⟨f, List.mem_cons_of_mem _ hf, hqf⟩

theorem mem_applyFilter {toLowerCase : Str → Str} {R : List Rec} {query : JsVal} {r : Rec}
    (h : r ∈ applyFilter toLowerCase R query) :
    r ∈ R ∧ toLowerCase (trim (safe query)) <:+:
      toLowerCase (join [' '] ((searchFields r).map safe)) := by
  unfold applyFilter at h
  simp only at h
  split at h
  · rename_i hq
    rw [(not_truthy_iff _).1 hq]
    exact ⟨h, List.nil_infix⟩
  · rw [List.mem_filter, includes_iff] at h
    exact h

theorem asciiLower_join (sep : Str) : ∀ fs : List Str,
    asciiLower (join sep fs) = join (asciiLower sep) (fs.map asciiLower)
  | [] => rfl
  | [a] => rfl
  | a :: b :: rest => by
    have ih := asciiLower_join sep (b :: rest)
    simp only [join, List.map_cons] at ih ⊢
    simp only [asciiLower, List.map_append] at ih ⊢
    rw [ih]

/-- C11, amended: every record returned by `applyFilter(R, q)` has the
trimmed, lower-cased query as a substring of the lower-cased string made of its
eight fields joined by single spaces, so that `applyFilter(R, q)` is empty when
no record has such a string containing the query. When the lower-cased query
has no space and lower-casing the joined fields lower-cases each field, one of
the eight fields contains the query by itself. -/
theorem applyFilter_haystack (toLowerCase : Str → Str) (R : List Rec) (query : JsVal) :
    (∀ r ∈ applyFilter toLowerCase R query,
      toLowerCase (trim (safe query)) <:+:
        toLowerCase (join [' '] ((searchFields r).map safe))) ∧
    ((∀ r ∈ R, ¬ toLowerCase (trim (safe query)) <:+:
        toLowerCase (join [' '] ((searchFields r).map safe))) →
      applyFilter toLowerCase R query = []) ∧
    ((∀ fs : List Str, toLowerCase (join [' '] fs) = join [' '] (fs.map toLowerCase)) →
      ' ' ∉ toLowerCase (trim (safe query)) →
      ∀ r ∈ applyFilter toLowerCase R query,
        ∃ f ∈ searchFields r, toLowerCase (trim (safe query)) <:+: toLowerCase (safe f)) := by
  refine ⟨fun r hr => (mem_applyFilter hr).2, ?_, ?_⟩
  · intro hno
    rw [List.eq_nil_iff_forall_not_mem]
    intro r hr
    exact hno r (mem_applyFilter hr).1 (mem_applyFilter hr).2
  · intro hdist hsp r hr
    have h := (mem_applyFilter hr).2
    rw [hdist] at h
    obtain ⟨f, hf, hqf⟩ := infix_join_of_not_mem hsp (by simp [searchFields]) h
    rw [List.mem_map] at hf
    obtain ⟨s, hs, rfl⟩ := hf
    rw [List.mem_map] at hs
    obtain ⟨v, hv, rfl⟩ := hs
    exact ⟨v, hv, hqf⟩

/-- C11 fails as stated: the query `imaging nih` is kept for a record whose
title is `Imaging` and whose agency is `NIH`, the match running over the space
that joins the two fields, while none of the eight fields contains the query
by itself. -/
theorem applyFilter_across_fields :
    applyFilter asciiLower
        [{ opportunity_title := .str "Imaging".toList, agency_name := .str "NIH".toList }]
        (.str "imaging nih".toList) =
      [{ opportunity_title := .str "Imaging".toList, agency_name := .str "NIH".toList }] ∧
    ∀ f ∈ searchFields
        { opportunity_title := .str "Imaging".toList, agency_name := .str "NIH".toList },
      ¬ asciiLower (trim "imaging nih".toList) <:+: asciiLower (safe f) := by
  decide

/-- C11, amended, at concrete inputs: the query ` COHORTS` is found inside one
field of every record it keeps, and `XYZ-NOMATCH` keeps no record. -/
theorem applyFilter_haystack_witness :
    (∀ r ∈ applyFilter asciiLower sampleRecs (.str " COHORTS".toList),
      ∃ f ∈ searchFields r, "cohorts".toList <:+: asciiLower (safe f)) ∧
    applyFilter asciiLower sampleRecs (.str "XYZ-NOMATCH".toList) = [] :=
  ⟨(applyFilter_haystack asciiLower sampleRecs (.str " COHORTS".toList)).2.2
      (asciiLower_join [' ']) (by decide),
   (applyFilter_haystack asciiLower sampleRecs (.str "XYZ-NOMATCH".toList)).2.1 (by decide)⟩

/-! ## The top records and the others -/

theorem mainBase_top (R : List Rec) (N : Int) : mainBase R "top".toList N = slice R 0 N := by
  simp [mainBase]

theorem mainBase_others (R : List Rec) (N : Int) :
    mainBase R "others".toList N =
      R.filter fun r => !(computeTopIds R N).has (safe r.opportunity_id) := by
  unfold mainBase
  rw [if_neg (by decide)]
  simp

theorem filter_take_of_forall {α : Type} (p : α → Bool) :
    ∀ (n : Nat) (l : List α), (∀ a ∈ l.take n, p a = true) → (l.filter p).take n = l.take n
  | 0, _, _ => by simp
  | _ + 1, [], _ => by simp
  | n + 1, a :: l, h => by
    have ha : p a = true := h a (by simp)
    have ih := filter_take_of_forall p n l (fun b hb => h b (by simp [hb]))
    simp [List.filter_cons, ha, ih]

/-- C12, amended: `computeTopIds(R, 2)` is the set of the non-empty ids among
the first two records of `R`, each id once; it is the set of the ids of the
first two records that have a non-empty id whenever the first two records of
`R` have one. -/
theorem computeTopIds_two (R : List Rec) :
    (∀ id, (computeTopIds R 2).has id = true ↔ id ≠ [] ∧ id ∈ idsOf (R.take 2)) ∧
    (computeTopIds R 2).members.Nodup ∧
    ((∀ r ∈ R.take 2, safe r.opportunity_id ≠ []) →
      ∀ id, (computeTopIds R 2).has id = true ↔ id ∈ idsOf (firstWithId 2 R)) := by
  refine ⟨fun id => has_computeTopIds R 2 id, ?_, ?_⟩
  · exact JsSet.nodup_foldl_add _ _ (by simp [JsSet.empty])
  · intro hne id
    have htake : firstWithId 2 R = R.take 2 :=
      filter_take_of_forall _ 2 R (fun r hr => (truthy_iff _).2 (hne r hr))
    rw [has_computeTopIds, htake]
    constructor
    · exact fun h => h.2
    · intro h
      refine ⟨?_, h⟩
      simp only [idsOf, List.mem_map] at h
      obtain ⟨r, hr, rfl⟩ := h
      exact hne r hr

/-- C12 fails as stated: when the first record has no id and the next three
have the ids `A`, `B` and `C`, the first two records that have an id are those
of `A` and `B`, and `computeTopIds(R, 2)` holds `A` only. -/
theorem computeTopIds_two_skips_no_id :
    idsOf (firstWithId 2 ({} :: sampleRecs)) = ["A".toList, "B".toList] ∧
    (computeTopIds ({} :: sampleRecs) 2).members = ["A".toList] ∧
    (computeTopIds ({} :: sampleRecs) 2).has "B".toList = false := by
  decide

/-- C12, amended, at a concrete input: the first two of the sample records have
the ids `A` and `B`. -/
theorem computeTopIds_two_witness :
    (∀ r ∈ sampleRecs.take 2, safe r.opportunity_id ≠ []) ∧
    ((computeTopIds sampleRecs 2).has "B".toList = true ↔
      "B".toList ∈ idsOf (firstWithId 2 sampleRecs)) :=
  ⟨by decide, (computeTopIds_two sampleRecs).2.2 (by decide) "B".toList⟩

/-- For `topN ≥ 0` the non-empty ids of the `top` active subset are the members
of the set of top identifiers. -/
theorem top_ids_of_nonneg (R : List Rec) (topN : Int) (h : 0 ≤ topN) (id : Str) :
    (computeTopIds R topN).has id = true ↔
      id ≠ [] ∧ id ∈ idsOf (mainBase R "top".toList topN) := by
  rw [has_computeTopIds, mainBase_top, slice_zero_of_nonneg R h, max_eq_right h]

/-- C13: with the three sample records and `topN = -1`, the `top` active subset
`recsAll.slice(0, -1)` holds the records of `A` and `B`, while
`computeTopIds(recsAll, -1)` is the empty set. -/
theorem top_subset_negative_topN :
    idsOf (mainBase sampleRecs "top".toList (-1)) = ["A".toList, "B".toList] ∧
    computeTopIds sampleRecs (-1) = JsSet.empty ∧
    ¬ ((computeTopIds sampleRecs (-1)).has "A".toList = true ↔
      "A".toList ≠ [] ∧ "A".toList ∈ idsOf (mainBase sampleRecs "top".toList (-1))) := by
  decide

theorem others_eq_drop (R : List Rec) (N : Int) (hN : 0 ≤ N)
    (hne : ∀ r ∈ R, safe r.opportunity_id ≠ []) (hnd : (idsOf R).Nodup) :
    mainBase R "others".toList N = R.drop N.toNat := by
  rw [mainBase_others]
  have hhas : ∀ id, (computeTopIds R N).has id = true ↔
      id ≠ [] ∧ id ∈ idsOf (R.take N.toNat) := by
    intro id
    rw [has_computeTopIds, max_eq_right hN]
  have hids : idsOf R = idsOf (R.take N.toNat) ++ idsOf (R.drop N.toNat) := by
    unfold idsOf
    rw [← List.map_append, List.take_append_drop]
  rw [hids, List.nodup_append] at hnd
  have hfilter : ∀ (p : Rec → Bool), R.filter p =
      (R.take N.toNat).filter p ++ (R.drop N.toNat).filter p := by
    intro p
    rw [← List.filter_append, List.take_append_drop]
  rw [hfilter]
  have h1 : (R.take N.toNat).filter
      (fun r => !(computeTopIds R N).has (safe r.opportunity_id)) = [] := by
    rw [List.filter_eq_nil_iff]
    intro r hr
    have hin : (computeTopIds R N).has (safe r.opportunity_id) = true :=
      (hhas _).2 ⟨hne r (List.mem_of_mem_take hr), List.mem_map_of_mem _ hr⟩
    simp [hin]
  have h2 : (R.drop N.toNat).filter
      (fun r => !(computeTopIds R N).has (safe r.opportunity_id)) = R.drop N.toNat := by
    rw [List.filter_eq_self]
    intro r hr
    have hnot : ¬ (computeTopIds R N).has (safe r.opportunity_id) = true := by
      intro hin
      exact hnd.2.2 ((hhas _).1 hin).2 (List.mem_map_of_mem _ hr)
    simpa using hnot
  rw [h1, h2, List.nil_append]

/-- C19: for records whose ids are non-empty and pairwise distinct and for an
integer `N ≥ 0`, the `top` active subset followed by the `others` active subset
is the list of all the records: the first is the first `N` records, the second
the remaining ones, and no record is in both. -/
theorem top_append_others (R : List Rec) (N : Int) (hN : 0 ≤ N)
    (hne : ∀ r ∈ R, safe r.opportunity_id ≠ []) (hnd : (idsOf R).Nodup) :
    mainBase R "top".toList N ++ mainBase R "others".toList N = R ∧
    mainBase R "top".toList N = R.take N.toNat ∧
    mainBase R "others".toList N = R.drop N.toNat ∧
    List.Disjoint (mainBase R "top".toList N) (mainBase R "others".toList N) := by
  have htop : mainBase R "top".toList N = R.take N.toNat := by
    rw [mainBase_top, slice_zero_of_nonneg R hN]
  have hothers := others_eq_drop R N hN hne hnd
  refine ⟨?_, htop, hothers, ?_⟩
  · rw [htop, hothers, List.take_append_drop]
  · rw [htop, hothers]
    exact List.disjoint_take_drop (List.Nodup.of_map _ hnd) (le_refl _)

/-- C19 at a concrete input: the three sample records and `N = 2`. -/
theorem top_append_others_witness :
    ((∀ r ∈ sampleRecs, safe r.opportunity_id ≠ []) ∧ (idsOf sampleRecs).Nodup) ∧
    mainBase sampleRecs "top".toList 2 ++ mainBase sampleRecs "others".toList 2 = sampleRecs ∧
    idsOf (mainBase sampleRecs "top".toList 2) = ["A".toList, "B".toList] ∧
    idsOf (mainBase sampleRecs "others".toList 2) = ["C".toList] :=
  ⟨⟨by decide, by decide⟩,
   (top_append_others sampleRecs 2 (by decide) (by decide) (by decide)).1,
   by decide, by decide⟩

/-- C20: a record of `R` whose `opportunity_id` is absent or empty is not
counted in the set of top identifiers, whatever `topN` is, and belongs to the
`others` active subset; when it is one of the first `topN` records it belongs
to the `top` active subset as well. -/
theorem no_id_in_others (R : List Rec) (topN : Int) (r : Rec) (hr : r ∈ R)
    (hid : safe r.opportunity_id = []) :
    (computeTopIds R topN).has (safe r.opportunity_id) = false ∧
    r ∈ mainBase R "others".toList topN ∧
    (r ∈ R.take topN.toNat →
      r ∈ mainBase R "top".toList topN ∧ r ∈ mainBase R "others".toList topN) := by
  have hhas : (computeTopIds R topN).has (safe r.opportunity_id) = false := by
    rw [Bool.eq_false_iff]
    intro h
    exact ((has_computeTopIds R topN _).1 h).1 hid
  have hothers : r ∈ mainBase R "others".toList topN := by
    rw [mainBase_others, List.mem_filter]
    exact ⟨hr, by simp [hhas]⟩
  refine ⟨hhas, hothers, fun htake => ⟨?_, hothers⟩⟩
  rw [mainBase_top]
  rcases le_or_lt 0 topN with h | h
  · rw [slice_zero_of_nonneg R h]
    exact htake
  · rw [Int.toNat_eq_zero.2 h.le] at htake
    simp at htake

/-- C20 at a concrete input: a record without id placed before the three
sample records, with `topN = 2`, is in both active subsets. -/
theorem no_id_in_others_witness :
    (computeTopIds ({} :: sampleRecs) 2).has [] = false ∧
    ({} : Rec) ∈ mainBase ({} :: sampleRecs) "top".toList 2 ∧
    ({} : Rec) ∈ mainBase ({} :: sampleRecs) "others".toList 2 :=
  have h := no_id_in_others ({} :: sampleRecs) 2 {} (List.mem_cons_self _ _) rfl
  ⟨h.1, h.2.2 (by decide)⟩

/-! ## The delimiter of the aims -/

/-- C14, amended: for every aims text whose trimmed form contains `" | "`, the
list `parseAims` returns is the sequence of the pieces of the trimmed text
split on `" | "`, each trimmed, the empty ones dropped, in order. For a text
without white space at its ends this is the split of the text itself. -/
theorem parseAims_bar (raw : JsVal) (hbar : [' ', '|', ' '] <:+: trim (safe raw)) :
    parseAims raw =
      ((split (trim (safe raw)) [' ', '|', ' ']).map trim).filter (fun p => decide (p ≠ [])) ∧
    (trim (safe raw) = safe raw →
      parseAims raw =
        ((split (safe raw) [' ', '|', ' ']).map trim).filter (fun p => decide (p ≠ []))) := by
  have hne : trim (safe raw) ≠ [] := by
    intro h
    rw [h] at hbar
    exact absurd (List.infix_nil.1 hbar) (by decide)
  have ht : truthy (trim (safe raw)) = true := (truthy_iff _).2 hne
  have hinc : includes (trim (safe raw)) " | ".toList = true := (includes_iff _ _).2 hbar
  have hfilter : ∀ l : List Str, l.filter truthy = l.filter (fun p => decide (p ≠ [])) := by
    intro l; congr 1; funext p; exact truthy_eq_decide p
  have main : parseAims raw =
      ((split (trim (safe raw)) [' ', '|', ' ']).map trim).filter (fun p => decide (p ≠ [])) := by
    simp only [parseAims, ht, hinc, Bool.not_true, Bool.false_eq_true, if_false, if_true,
      hfilter]
    rfl
  refine ⟨main, fun h => ?_⟩
  rw [main, h]

/-- C14 fails as stated: the text `a | ` contains the delimiter, its trimmed
form `a |` does not, and `parseAims` returns `["a |"]` where the split of the
text gives `["a"]`; the text ` | a | b` is split after its leading space is
trimmed, which gives `["| a", "b"]` and not `["a", "b"]`. -/
theorem parseAims_bar_at_the_ends :
    ([' ', '|', ' '] <:+: "a | ".toList ∧
      parseAims (.str "a | ".toList) = ["a |".toList] ∧
      ((split "a | ".toList [' ', '|', ' ']).map trim).filter (fun p => decide (p ≠ [])) =
        ["a".toList]) ∧
    ([' ', '|', ' '] <:+: " | a | b".toList ∧
      parseAims (.str " | a | b".toList) = ["| a".toList, "b".toList] ∧
      ((split " | a | b".toList [' ', '|', ' ']).map trim).filter (fun p => decide (p ≠ [])) =
        ["a".toList, "b".toList]) := by
  decide

/-- C14, amended, at a concrete input: `x | y |z` has no white space at its
ends and splits into `x` and `y |z`. -/
theorem parseAims_bar_witness :
    [' ', '|', ' '] <:+: trim (safe (.str "x | y |z".toList)) ∧
    parseAims (.str "x | y |z".toList) = ["x".toList, "y |z".toList] :=
  ⟨by decide, (parseAims_bar (.str "x | y |z".toList) (by decide)).1.trans (by decide)⟩

/-! ## The card of a record without content -/

theorem cardHeader_eq (rec : Rec) :
    cardHeader rec = divOf "card-header".toList [
      divOf "card-title".toList [titleLink rec],
      divOf "card-subtitle".toList (subtitleBits rec)] := rfl

theorem truthy_nil : truthy [] = false := rfl

theorem trim_nil : trim [] = [] := rfl

theorem metaRows_blank (rec : Rec) (h : rec.blank) : metaRows rec = [] := by
  obtain ⟨-, -, hagency, hnum, hstatus, hopen, hclose, -⟩ := h
  unfold JsVal.blank at *
  simp only [metaRows, addText, addLink, hagency, hnum, hstatus, hopen, hclose, trim_nil,
    truthy_nil, Bool.not_false, if_true]

theorem renderMeta_blank (rec : Rec) (h : rec.blank) : renderMeta rec = none := by
  simp only [renderMeta, metaRows_blank rec h, List.length_nil, if_true]

theorem cardHeader_blank (rec : Rec) (h : rec.blank) : cardHeader rec = blankHeader := by
  obtain ⟨-, htitle, hagency, hnum, -, -, hclose, hurl, -⟩ := h
  unfold JsVal.blank at *
  simp only [cardHeader, subtitleBits, htitle, hagency, hnum, hclose, hurl, truthy_nil,
    Bool.false_eq_true, if_false]
  rfl

theorem cardTeamLine_blank (rec : Rec) (h : rec.blank) :
    cardTeamLine rec = divOf "pill-row".toList [] := by
  obtain ⟨-, -, -, -, -, -, -, -, -, -, hteam, -⟩ := h
  unfold JsVal.blank at *
  simp only [cardTeamLine, parseTeam, hteam]
  rfl

theorem cardBody_blank (rec : Rec) (h : rec.blank) : cardBody rec = blankBody := by
  have hmeta := renderMeta_blank rec h
  obtain ⟨-, -, -, -, -, -, -, -, hproposed, hrationale, -, haims, hsize⟩ := h
  unfold JsVal.blank at *
  have hlarge : ¬ rec.team_size_category = .str "large".toList := by
    intro hl
    rw [hl] at hsize
    exact absurd hsize (by decide)
  simp only [cardBody, parseAims, hmeta, hproposed, hrationale, haims, hlarge, if_false]
  rfl

/-- C15: for a record whose fields are all absent or empty and for every
render options, the card `renderCard` returns holds a header, a row of team
tags without tags and the detail body, which holds in this order a section
`Suggested title` with empty text, a section `Rationale` with empty text and a
section `Proposed aims` with an empty list, and no metadata block; the detail
body is the third child of the card when the card is always expanded and sits
in the disclosure control otherwise. -/
theorem renderCard_blank (rec : Rec) (opts : Opts) (h : rec.blank) :
    renderCard rec opts = blankCard opts ∧ renderMeta rec = none := by
  refine ⟨?_, renderMeta_blank rec h⟩
  unfold renderCard
  simp only [cardHeader_blank rec h, cardTeamLine_blank rec h, cardBody_blank rec h]
  unfold blankCard
  cases hexp : opts.alwaysExpanded
  · cases hopen : opts.openByDefault
    · rfl
    · rfl
  · rfl

/-- C15 at concrete inputs: the record without any field, and a record with
empty and `null` fields. -/
theorem renderCard_blank_witness :
    renderCard {} { alwaysExpanded := true } = blankCard { alwaysExpanded := true } ∧
    renderCard { opportunity_title := .str [], agency_name := .null, team_members := .str [] }
      { openByDefault := true } = blankCard { openByDefault := true } :=
  ⟨(renderCard_blank {} _ (by simp [Rec.blank, JsVal.blank, safe])).1,
   (renderCard_blank _ _ (by simp [Rec.blank, JsVal.blank, safe])).1⟩

/-! ## The metadata block -/

theorem dropWhile_eq_self {p : Char → Bool} {l : Str}
    (h : ∀ c rest, l = c :: rest → p c = false) : l.dropWhile p = l := by
  cases l with
  | nil => rfl
  | cons c rest => simp [List.dropWhile, h c rest rfl]

/-- Trimming a trimmed string changes nothing. -/
theorem trim_trim (s : Str) : trim (trim s) = trim s := by
  have hstart : trimStart (trim s) = trim s := by
    unfold trimStart
    apply dropWhile_eq_self
    intro c rest hc
    unfold trim trimEnd at hc
    obtain ⟨t, ht⟩ := List.dropWhile_suffix isWhiteSpace (l := (trimStart s).reverse)
    have hd : trimStart s = c :: (rest ++ t.reverse) := by
      have := congrArg List.reverse ht
      rw [List.reverse_append, List.reverse_reverse, hc] at this
      rw [← this]; rfl
    exact dropWhile_head_not hd
  have hend : trimEnd (trim s) = trim s := by
    unfold trimEnd
    have hrev : (trim s).reverse = (trimStart s).reverse.dropWhile isWhiteSpace := by
      unfold trim trimEnd
      rw [List.reverse_reverse]
    rw [hrev]
    have : ((trimStart s).reverse.dropWhile isWhiteSpace).dropWhile isWhiteSpace =
        (trimStart s).reverse.dropWhile isWhiteSpace := by
      apply dropWhile_eq_self
      intro c rest hc
      exact dropWhile_head_not hc
    rw [this, ← hrev, List.reverse_reverse]
  show trimEnd (trimStart (trim s)) = trim s
  rw [hstart, hend]

theorem el_link_inline (href : Str) (children : List Node) :
    el "a".toList [("href".toList, href), ("target".toList, "_blank".toList),
      ("rel".toList, "noopener noreferrer".toList)] children =
      Node.element "a".toList [] (linkAttrs href) children := rfl

theorem safe_str (s : Str) : safe (.str s) = s := rfl

theorem addText_eq (rows : List Node) (label : Str) (value : JsVal) (hlabel : label ≠ []) :
    addText rows label value = rows ++ textRowIf label value := by
  unfold addText textRowIf
  by_cases hv : trim (safe value) = []
  · simp [hv, truthy]
  · have ht : truthy (trim (safe value)) = true := (truthy_iff _).2 hv
    have hl : truthy label = true := (truthy_iff _).2 hlabel
    simp only [ht, Bool.not_true, Bool.false_eq_true, if_false, ne_eq, hv, not_false_eq_true,
      if_true, el_class, el_class_text, hl, List.append_cancel_left_eq]
    rfl

theorem addLink_eq (rows : List Node) (label : Str) (text href : JsVal) (hlabel : label ≠ []) :
    addLink rows label text href = rows ++ linkRowIf label text href := by
  unfold addLink linkRowIf
  by_cases hv : trim (safe text) = []
  · simp [hv, truthy]
  · have ht : truthy (trim (safe text)) = true := (truthy_iff _).2 hv
    have hl : truthy label = true := (truthy_iff _).2 hlabel
    by_cases hh : trim (safe href) = []
    · have hrow := addText_eq rows label (.str (trim (safe text))) hlabel
      simp only [textRowIf, safe_str, trim_trim, ne_eq, hv, not_false_eq_true, if_true] at hrow
      simp only [ht, hh, truthy_nil, Bool.not_true, Bool.not_false, Bool.false_eq_true, if_false,
        if_true, ne_eq, hv, not_false_eq_true, not_true_eq_false, hrow]
    · have hth : truthy (trim (safe href)) = true := (truthy_iff _).2 hh
      simp only [ht, hth, Bool.not_true, Bool.false_eq_true, if_false, ne_eq, hv, hh,
        not_false_eq_true, if_true, el_class, el_class_text, el_link_inline, hl,
        List.append_cancel_left_eq]
      rfl

theorem metaRows_eq (rec : Rec) :
    metaRows rec =
      textRowIf "Agency".toList rec.agency_name ++
      linkRowIf "Announcement ID".toList rec.opportunity_number rec.opportunity_url ++
      textRowIf "Status".toList rec.opp_status ++
      textRowIf "Open date".toList rec.open_date ++
      textRowIf "Close date".toList rec.close_date := by
  unfold metaRows
  simp only [addText_eq _ _ _ (by decide : "Agency".toList ≠ []),
    addLink_eq _ _ _ _ (by decide : "Announcement ID".toList ≠ []),
    addText_eq _ _ _ (by decide : "Status".toList ≠ []),
    addText_eq _ _ _ (by decide : "Open date".toList ≠ []),
    addText_eq _ _ _ (by decide : "Close date".toList ≠ []), List.nil_append]

theorem textRowIf_eq_nil (label : Str) (value : JsVal) :
    textRowIf label value = [] ↔ trim (safe value) = [] := by
  unfold textRowIf
  by_cases h : trim (safe value) = [] <;> simp [h]

theorem linkRowIf_eq_nil (label : Str) (value url : JsVal) :
    linkRowIf label value url = [] ↔ trim (safe value) = [] := by
  unfold linkRowIf
  by_cases h : trim (safe value) = [] <;> simp [h]

/-- C16: the rows of `renderMeta` are, in this order, those of Agency,
Announcement ID, Status, Open date and Close date, each present exactly when the
value of its field is not empty once trimmed; the row of Announcement ID is a
link to `opportunity_url` when the trimmed URL is not empty and plain text
otherwise; `renderMeta` returns `null` exactly when no row is present, and the
block around the rows otherwise. -/
theorem renderMeta_rows (rec : Rec) :
    metaRows rec =
      textRowIf "Agency".toList rec.agency_name ++
      linkRowIf "Announcement ID".toList rec.opportunity_number rec.opportunity_url ++
      textRowIf "Status".toList rec.opp_status ++
      textRowIf "Open date".toList rec.open_date ++
      textRowIf "Close date".toList rec.close_date ∧
    (renderMeta rec = none ↔
      trim (safe rec.agency_name) = [] ∧ trim (safe rec.opportunity_number) = [] ∧
      trim (safe rec.opp_status) = [] ∧ trim (safe rec.open_date) = [] ∧
      trim (safe rec.close_date) = []) ∧
    (renderMeta rec = none ↔ metaRows rec = []) ∧
    (metaRows rec ≠ [] → renderMeta rec = some (metaBlockOf (metaRows rec))) := by
  have hnone : renderMeta rec = none ↔ metaRows rec = [] := by
    unfold renderMeta
    by_cases h : metaRows rec = []
    · simp [h]
    · have hlen : ¬ (metaRows rec).length = 0 := fun hl => h (List.length_eq_zero.1 hl)
      simp [h, hlen]
  refine ⟨metaRows_eq rec, ?_, hnone, ?_⟩
  · rw [hnone, metaRows_eq]
    simp only [List.append_eq_nil, textRowIf_eq_nil, linkRowIf_eq_nil, and_assoc]
  · intro h
    have hlen : ¬ (metaRows rec).length = 0 := fun hl => h (List.length_eq_zero.1 hl)
    simp only [renderMeta, hlen, if_false, el_class, el_class_text]
    rfl

/-! ## The header -/

/-- C17: for a record with an opportunity number and no agency name the
subtitle is the separator followed by the number, so that it begins with a
separator and has one separator for one segment; a close date alone carries
its separator as well. With the agency name present the separators stand
between the segments. -/
theorem subtitleBits_leading_separator :
    subtitleBits { opportunity_number := .str "NIH-1".toList } =
      [Node.text " • ".toList, Node.text "NIH-1".toList] ∧
    subtitleBits { close_date := .str "2025-01-31".toList } =
      [Node.text " • closes 2025-01-31".toList] ∧
    subtitleBits {
        agency_name := .str "NIH".toList
        opportunity_number := .str "NIH-1".toList
        close_date := .str "2025-01-31".toList } =
      [Node.text "NIH".toList, Node.text " • ".toList, Node.text "NIH-1".toList,
       Node.text " • closes 2025-01-31".toList] :=
  ⟨rfl, rfl, rfl⟩

theorem titleLink_eq (rec : Rec) :
    titleLink rec =
      Node.element "a".toList []
        (linkAttrs (if safe rec.opportunity_url ≠ [] then safe rec.opportunity_url
          else "#".toList))
        [Node.text (if safe rec.opportunity_title ≠ [] then safe rec.opportunity_title
          else "Untitled".toList)] := by
  unfold titleLink
  simp only [el_link, truthy_eq_decide, decide_eq_true_eq]

/-- C18, amended: the title node of the header of `renderCard` is always a
link, to `opportunity_url` when it is not empty and to `#` when it is empty;
its text is `opportunity_title`, or the literal `Untitled` when the title is
empty. -/
theorem header_title_link (rec : Rec) :
    cardHeader rec = divOf "card-header".toList [
      divOf "card-title".toList [titleLink rec],
      divOf "card-subtitle".toList (subtitleBits rec)] ∧
    titleLink rec =
      Node.element "a".toList []
        [("href".toList,
          if safe rec.opportunity_url ≠ [] then safe rec.opportunity_url else "#".toList),
         ("target".toList, "_blank".toList), ("rel".toList, "noopener noreferrer".toList)]
        [Node.text (if safe rec.opportunity_title ≠ [] then safe rec.opportunity_title
          else "Untitled".toList)] :=
  ⟨cardHeader_eq rec, titleLink_eq rec⟩

/-- C18 fails as stated: for a record without URL the title node of the header
is not a bare text label but a link, whose `href` is `#`. -/
theorem title_link_without_url :
    safe ({ opportunity_title := .str "Imaging".toList } : Rec).opportunity_url = [] ∧
    titleLink { opportunity_title := .str "Imaging".toList } =
      Node.element "a".toList []
        [("href".toList, "#".toList), ("target".toList, "_blank".toList),
         ("rel".toList, "noopener noreferrer".toList)]
        [Node.text "Imaging".toList] ∧
    ∀ label, titleLink { opportunity_title := .str "Imaging".toList } ≠ Node.text label :=
  ⟨rfl, rfl, fun _ h => Node.noConfusion h⟩

end RenderTeams
